import Mathlib

/-!
# snappy-start: the restorer (`restore.cc`)

A shallow embedding of `restore.cc`: the `Reader` cursor over the memory-mapped
metadata file, the region loop of `_start`, and the register hand-over done by
`RestoreRegs`.

Conventions of the embedding.

* Pointers and `uint64_t`/`uintptr_t`/`size_t` values are natural numbers; every
  arithmetic step that the machine performs on 64 bits is followed by `% two64`.
* The metadata file is a list of bytes (`buf`), mapped at address `mapping_`.  A load
  from an address outside `[mapping_, mapping_ + buf.length)` is not given a value:
  the run stops with `Stop.outOfBounds`.
* `assert(e)` with `e` false writes the diagnostic and calls `sys_exit_group(1)`: the
  run stops with `Stop.fatal`.
* System calls are answered by an environment `Env`; each call made by the program is
  recorded, with its arguments and its result, in the trace of the run.
-/

namespace SnappyStart

/-! ## Machine words -/

/-- The number of values of a 64-bit word. -/
def two64 : Nat := 2 ^ 64

/-- The `(void *) -1` returned by a failed `sys_mmap`. -/
def MAP_FAILED : Nat := 2 ^ 64 - 1

/-- Linux x86-64 `<sys/mman.h>`: `PROT_READ`. -/
def PROT_READ : Nat := 1
/-- Linux x86-64 `<sys/mman.h>`: `MAP_PRIVATE`. -/
def MAP_PRIVATE : Nat := 2
/-- Linux x86-64 `<sys/mman.h>`: `MAP_FIXED`. The restorer never passes it. -/
def MAP_FIXED : Nat := 16
/-- Linux x86-64 `<sys/mman.h>`: `MAP_ANON`. -/
def MAP_ANON : Nat := 32
/-- Linux `<fcntl.h>`: `O_RDONLY`. -/
def O_RDONLY : Nat := 0
/-- Linux x86-64 `<asm/prctl.h>`: `ARCH_SET_FS`. -/
def ARCH_SET_FS : Nat := 4098

/-- Conversion of a 64-bit value to `int` (`int mapping_count = reader.Get()`): the low
32 bits, read as a two's complement number. -/
def toInt32 (w : Nat) : Int :=
  if w % 2 ^ 32 < 2 ^ 31 then ((w % 2 ^ 32 : Nat) : Int) else ((w % 2 ^ 32 : Nat) : Int) - 2 ^ 32

/-! ## Outcomes -/

/-- The hardware register state loaded by the final `popq`s and `iretq`. -/
structure HwState where
  rax : Nat
  rcx : Nat
  rdx : Nat
  rbx : Nat
  rsp : Nat
  rbp : Nat
  rsi : Nat
  rdi : Nat
  r8 : Nat
  r9 : Nat
  r10 : Nat
  r11 : Nat
  r12 : Nat
  r13 : Nat
  r14 : Nat
  r15 : Nat
  rip : Nat
  rflags : Nat
  cs : Nat
  ss : Nat
  deriving DecidableEq, Repr

/-- How a run of the restorer ends. -/
inductive Stop where
  /-- An `assert` failed: diagnostic on stderr, then `sys_exit_group(1)`. -/
  | fatal
  /-- A load from an address outside the metadata mapping was attempted. -/
  | outOfBounds
  /-- The run reached `iretq`, which loads this register state. -/
  | transferred (hw : HwState)
  deriving DecidableEq, Repr

/-- Result of an operation that may stop the run. -/
abbrev Res (α : Type) := Except Stop α

instance instDecidableEqRes {ε α : Type} [DecidableEq ε] [DecidableEq α] :
    DecidableEq (Except ε α)
  | .ok a, .ok b => if h : a = b then isTrue (by rw [h]) else isFalse (by simpa using h)
  | .error a, .error b => if h : a = b then isTrue (by rw [h]) else isFalse (by simpa using h)
  | .ok _, .error _ => isFalse (by simp)
  | .error _, .ok _ => isFalse (by simp)

/-! ## The Reader -/

/-- The class `Reader`: its three pointer fields, together with the bytes of the file
that `mapping_` points to. -/
structure Reader where
  mapping_ : Nat
  pos_ : Nat
  end_ : Nat
  buf : List Nat
  deriving DecidableEq, Repr

/-- One byte load through a pointer into the metadata mapping. -/
def Reader.load (r : Reader) (a : Nat) : Option Nat :=
  if r.mapping_ ≤ a then (r.buf[a - r.mapping_]?).map (fun b => b % 256) else none

/-- The loads done by `memcpy(&val, pos_, n)` on a little-endian machine: `n` bytes from
address `a` upwards, assembled least significant byte first. -/
def Reader.loadLE (r : Reader) : Nat → Nat → Option Nat
  | 0, _ => some 0
  | n + 1, a =>
    match r.load a with
    | none => none
    | some b =>
      match r.loadLE n ((a + 1) % two64) with
      | none => none
      | some v => some (b + 256 * v)

/-- The method `Reader::Get`. -/
def Reader.Get (r : Reader) : Res (Nat × Reader) :=
  if (r.pos_ + 8) % two64 ≤ r.end_ then
    match r.loadLE 8 r.pos_ with
    | none => .error .outOfBounds
    | some val => .ok (val, { r with pos_ := (r.pos_ + 8) % two64 })
  else .error .fatal

/-- The method `Reader::GetString`; the result is the pointer `str`. -/
def Reader.GetString (r : Reader) : Res (Nat × Reader) :=
  match r.Get with
  | .error e => .error e
  | .ok (len, r1) =>
    let str := r1.pos_
    let r2 : Reader := { r1 with pos_ := (r1.pos_ + (len + 1) % two64) % two64 }
    if r2.pos_ ≤ r2.end_ then .ok (str, r2) else .error .fatal

/-! ## System calls and the environment -/

/-- The `filename` argument of `sys_open`: a string literal of the program, or a pointer
into the metadata mapping. -/
inductive PathArg where
  | lit (s : String)
  | ptr (addr : Nat)
  deriving DecidableEq, Repr

/-- One system call of the run, with the argument values written at the call site and
the value it returned. -/
inductive Event where
  | sys_open (filename : PathArg) (flags mode : Nat) (ret : Int)
  | sys_fstat (fd : Int) (st_size : Nat) (rc : Int)
  | sys_mmap (addr len prot flags : Nat) (fd : Int) (off : Nat) (ret : Nat)
  | sys_close (fd : Int) (rc : Int)
  | sys_munmap (addr len : Nat) (rc : Int)
  | sys_arch_prctl (code addr : Nat) (rc : Int)
  | sys_set_tid_address (tid_address : Nat) (rc : Int)
  deriving DecidableEq, Repr

/-- What the kernel and the processor answer during one run.  The calls made for the
region with loop index `i` are answered by `mmapRet i`, `openRet i` and `closeRet i`. -/
structure Env where
  /-- The bytes of the file `out_info`. -/
  info : List Nat
  /-- Result of `sys_open("out_info", O_RDONLY, 0)`. -/
  openInfo : Int
  /-- Result of `sys_fstat`. -/
  fstatRc : Int
  /-- Result of the `sys_mmap` of the metadata file. -/
  mmapInfo : Nat
  /-- Result of the `sys_close` of the metadata file descriptor. -/
  closeInfo : Int
  /-- Result of `sys_open("out_pages", O_RDONLY, 0)`. -/
  openPages : Int
  mmapRet : Nat → Nat
  openRet : Nat → Int
  closeRet : Nat → Int
  /-- Result of `sys_munmap` in `Reader::Unmap`. -/
  munmapRc : Int
  /-- Result of `sys_close(mapfile_fd)`. -/
  closePages : Int
  /-- Result of `sys_arch_prctl`. -/
  prctlRc : Int
  /-- Result of `sys_set_tid_address`. -/
  tidRc : Int
  /-- The live code segment selector, read by `mov %cs`. -/
  cs : Nat
  /-- The live stack segment selector, read by `mov %ss`. -/
  ss : Nat
  /-- The live RFLAGS register at the moment `iretq` executes. -/
  rflags : Nat

/-- The constructor `Reader::Reader("out_info")`. -/
def Reader.ctor (env : Env) : List Event × Res Reader :=
  let fd := env.openInfo
  let e1 := Event.sys_open (.lit "out_info") O_RDONLY 0 fd
  if fd < 0 then ([e1], .error .fatal) else
  let rc := env.fstatRc
  let file_size := env.info.length % two64
  let e2 := Event.sys_fstat fd file_size rc
  if rc ≠ 0 then ([e1, e2], .error .fatal) else
  let mapping := env.mmapInfo
  let e3 := Event.sys_mmap 0 file_size PROT_READ MAP_PRIVATE fd 0 mapping
  if mapping = MAP_FAILED then ([e1, e2, e3], .error .fatal) else
  let rc2 := env.closeInfo
  let e4 := Event.sys_close fd rc2
  if rc2 ≠ 0 then ([e1, e2, e3, e4], .error .fatal) else
  ([e1, e2, e3, e4],
    .ok { mapping_ := mapping, pos_ := mapping, end_ := (mapping + file_size) % two64,
          buf := env.info })

/-- The method `Reader::Unmap`: the call it makes and whether its assertion holds. -/
def Reader.Unmap (env : Env) (r : Reader) : Event × Bool :=
  let rc := env.munmapRc
  (Event.sys_munmap r.mapping_ ((r.end_ + two64 - r.mapping_) % two64) rc, decide (rc = 0))

/-! ## Registers -/

/-- The struct `RegsToRestore`, fields in declaration order. -/
structure RegsToRestore where
  rax : Nat
  rcx : Nat
  rdx : Nat
  rbx : Nat
  rbp : Nat
  rsi : Nat
  rdi : Nat
  r8 : Nat
  r9 : Nat
  r10 : Nat
  r11 : Nat
  r12 : Nat
  r13 : Nat
  r14 : Nat
  r15 : Nat
  rip : Nat
  cs : Nat
  flags : Nat
  rsp : Nat
  ss : Nat
  deriving DecidableEq, Repr

/-- The memory image of a `RegsToRestore`: twenty 8-byte words, lowest address first. -/
def RegsToRestore.image (regs : RegsToRestore) : List Nat :=
  [regs.rax, regs.rcx, regs.rdx, regs.rbx, regs.rbp, regs.rsi, regs.rdi,
   regs.r8, regs.r9, regs.r10, regs.r11, regs.r12, regs.r13, regs.r14, regs.r15,
   regs.rip, regs.cs, regs.flags, regs.rsp, regs.ss]

/-- The instruction `popq`: the word at the stack pointer, and the stack above it. -/
def popq (stack : List Nat) : Nat × List Nat := (stack.headD 0, stack.tail)

/-- The flag bits that `iretq` loads from the popped word at every privilege level: CF,
PF, AF, ZF, SF, TF, DF, OF, NT, RF, AC and ID (bits 0, 2, 4, 6, 7, 8, 10, 11, 14, 16, 18
and 21). -/
def iretqAlways : Nat := 0x254DD5

/-- The flag bits that `iretq` loads from the popped word when it returns in 64-bit mode
to the privilege level `cpl` it runs at, with `live` the RFLAGS before the instruction
(Intel SDM, IRET, return to the same privilege level): the bits of `iretqAlways`; IF
(bit 9) when `cpl` is at most the IOPL held in bits 12 and 13 of `live`; IOPL, VIF and
VIP (bits 12, 13, 19 and 20) when `cpl` is 0. -/
def iretqWritable (cpl live : Nat) : Nat :=
  iretqAlways ||| (if cpl ≤ live / 4096 % 4 then 0x200 else 0) |||
    (if cpl = 0 then 0x183000 else 0)

/-- The RFLAGS after `iretq`: the writable bits come from the popped word, every other
bit keeps its live value. -/
def iretqFlags (cpl live popped : Nat) : Nat :=
  (popped &&& iretqWritable cpl live) |||
    (live &&& ((two64 - 1) ^^^ iretqWritable cpl live))

/-- The function `RestoreRegs`: the two selector stores, `movq regs, %rsp`, the fifteen
`popq`s in program order, and `iretq`, which pops rip, cs, rflags, rsp and ss.  The
popped selectors are the live ones, so `iretq` returns to the privilege level it runs
at, which is the low two bits of the code segment selector; of the popped flags word it
loads the bits that this privilege level may write.  The state is the one that `iretq`
loads when it completes. -/
def RestoreRegs (env : Env) (regs : RegsToRestore) : HwState :=
  let regs1 := { regs with cs := env.cs }
  let regs2 := { regs1 with ss := env.ss }
  let st := regs2.image
  let (rax, st) := popq st
  let (rcx, st) := popq st
  let (rdx, st) := popq st
  let (rbx, st) := popq st
  let (rbp, st) := popq st
  let (rsi, st) := popq st
  let (rdi, st) := popq st
  let (r8, st) := popq st
  let (r9, st) := popq st
  let (r10, st) := popq st
  let (r11, st) := popq st
  let (r12, st) := popq st
  let (r13, st) := popq st
  let (r14, st) := popq st
  let (r15, st) := popq st
  let (rip, st) := popq st
  let (cs, st) := popq st
  let (rflags, st) := popq st
  let (rsp, st) := popq st
  let (ss, _) := popq st
  { rax := rax, rcx := rcx, rdx := rdx, rbx := rbx, rsp := rsp, rbp := rbp, rsi := rsi,
    rdi := rdi, r8 := r8, r9 := r9, r10 := r10, r11 := r11, r12 := r12, r13 := r13,
    r14 := r14, r15 := r15, rip := rip,
    rflags := iretqFlags (cs % 4) env.rflags rflags, cs := cs, ss := ss }

/-! ## The body of `_start` -/

/-- The locals of `_start` that are filled before the region loop.  The fields `cs` and
`ss` of `regs` are not written by `_start`; they are stored by `RestoreRegs` before
they are used, and hold 0 until then. -/
structure Header where
  regs : RegsToRestore
  fs_segment_base : Nat
  tid_address : Nat
  mapping_count : Int
  deriving DecidableEq, Repr

/-- The twenty-one `reader.Get()` calls that open `_start`, in program order. -/
def readHeader (r : Reader) : Res (Header × Reader) := do
  let (rax, r) ← r.Get
  let (rcx, r) ← r.Get
  let (rdx, r) ← r.Get
  let (rbx, r) ← r.Get
  let (rsp, r) ← r.Get
  let (rbp, r) ← r.Get
  let (rsi, r) ← r.Get
  let (rdi, r) ← r.Get
  let (r8, r) ← r.Get
  let (r9, r) ← r.Get
  let (r10, r) ← r.Get
  let (r11, r) ← r.Get
  let (r12, r) ← r.Get
  let (r13, r) ← r.Get
  let (r14, r) ← r.Get
  let (r15, r) ← r.Get
  let (rip, r) ← r.Get
  let (flags, r) ← r.Get
  let (fs_segment_base, r) ← r.Get
  let (tid_address, r) ← r.Get
  let (count, r) ← r.Get
  pure ({ regs := { rax := rax, rcx := rcx, rdx := rdx, rbx := rbx, rbp := rbp, rsi := rsi,
                    rdi := rdi, r8 := r8, r9 := r9, r10 := r10, r11 := r11, r12 := r12,
                    r13 := r13, r14 := r14, r15 := r15, rip := rip, cs := 0,
                    flags := flags, rsp := rsp, ss := 0 },
          fs_segment_base := fs_segment_base, tid_address := tid_address,
          mapping_count := toInt32 count }, r)

/-- The branch of the `if / else if / else` of the loop body that is taken. -/
inductive Source where
  /-- `if (has_data_in_dump_file)`, with the `mapfile_offset` read in that branch. -/
  | dumpFile (mapfile_offset : Nat)
  /-- `else if (*filename)`. -/
  | backingFile
  /-- The final `else`. -/
  | anonymous
  deriving DecidableEq, Repr

/-- The locals of one loop iteration once all its reads are done. -/
structure Region where
  addr : Nat
  size : Nat
  prot : Nat
  filename : Nat
  file_offset : Nat
  source : Source
  deriving DecidableEq, Repr

/-- The reads of one loop iteration, in program order: five `Get`s and one `GetString`,
then either the `Get` of `mapfile_offset` or the load `*filename`. -/
def readRegion (r : Reader) : Res (Region × Reader) := do
  let (addr, r) ← r.Get
  let (size, r) ← r.Get
  let (prot, r) ← r.Get
  let (filename, r) ← r.GetString
  let (file_offset, r) ← r.Get
  let (flag, r) ← r.Get
  let has_data_in_dump_file : Bool := decide (flag ≠ 0)
  if has_data_in_dump_file then
    let (mapfile_offset, r) ← r.Get
    pure ({ addr := addr, size := size, prot := prot, filename := filename,
            file_offset := file_offset, source := .dumpFile mapfile_offset }, r)
  else
    match r.load filename with
    | none => .error .outOfBounds
    | some c =>
      if c ≠ 0 then
        pure ({ addr := addr, size := size, prot := prot, filename := filename,
                file_offset := file_offset, source := .backingFile }, r)
      else
        pure ({ addr := addr, size := size, prot := prot, filename := filename,
                file_offset := file_offset, source := .anonymous }, r)

/-- The system calls of one loop iteration, and whether all its assertions hold. -/
def installRegion (env : Env) (mapfile_fd : Int) (i : Nat) (m : Region) : List Event × Bool :=
  match m.source with
  | .dumpFile mapfile_offset =>
    let addr2 := env.mmapRet i
    ([Event.sys_mmap m.addr m.size m.prot MAP_PRIVATE mapfile_fd mapfile_offset addr2],
      decide (addr2 = m.addr))
  | .backingFile =>
    let fd := env.openRet i
    let e1 := Event.sys_open (.ptr m.filename) O_RDONLY 0 fd
    if fd < 0 then ([e1], false) else
    let addr2 := env.mmapRet i
    let e2 := Event.sys_mmap m.addr m.size m.prot MAP_PRIVATE fd m.file_offset addr2
    if addr2 ≠ m.addr then ([e1, e2], false) else
    let rc := env.closeRet i
    ([e1, e2, Event.sys_close fd rc], decide (rc = 0))
  | .anonymous =>
    let addr2 := env.mmapRet i
    ([Event.sys_mmap m.addr m.size m.prot (MAP_PRIVATE ||| MAP_ANON) (-1) 0 addr2],
      decide (addr2 = m.addr))

/-- The loop `for (int i = 0; i < mapping_count; i++)`, started with `n` iterations left
and loop index `i`. -/
def mapLoop (env : Env) (mapfile_fd : Int) : Nat → Nat → Reader → List Event × Res Reader
  | 0, _, r => ([], .ok r)
  | n + 1, i, r =>
    match readRegion r with
    | .error e => ([], .error e)
    | .ok (m, r1) =>
      match installRegion env mapfile_fd i m with
      | (evs, false) => (evs, .error .fatal)
      | (evs, true) =>
        match mapLoop env mapfile_fd n (i + 1) r1 with
        | (rest, res) => (evs ++ rest, res)

/-- The end of `_start`, from `reader.Unmap()` to `RestoreRegs(&regs)`. -/
def finish (env : Env) (mapfile_fd : Int) (h : Header) (r : Reader) : List Event × Stop :=
  match Reader.Unmap env r with
  | (e1, false) => ([e1], .fatal)
  | (e1, true) =>
    let rc := env.closePages
    let e2 := Event.sys_close mapfile_fd rc
    if rc ≠ 0 then ([e1, e2], .fatal) else
    let rc2 := env.prctlRc
    let e3 := Event.sys_arch_prctl ARCH_SET_FS h.fs_segment_base rc2
    if rc2 ≠ 0 then ([e1, e2, e3], .fatal) else
    let rc3 := env.tidRc
    let e4 := Event.sys_set_tid_address h.tid_address rc3
    if rc3 < 0 then ([e1, e2, e3, e4], .fatal) else
    ([e1, e2, e3, e4], .transferred (RestoreRegs env h.regs))

/-- The entry point `_start`: the system calls made, in order, and how the run ends. -/
def _start (env : Env) : List Event × Stop :=
  match Reader.ctor env with
  | (t0, .error e) => (t0, e)
  | (t0, .ok reader) =>
    let mapfile_fd := env.openPages
    let e := Event.sys_open (.lit "out_pages") O_RDONLY 0 mapfile_fd
    if mapfile_fd < 0 then (t0 ++ [e], .fatal) else
    match readHeader reader with
    | .error s => (t0 ++ [e], s)
    | .ok (h, reader1) =>
      match mapLoop env mapfile_fd h.mapping_count.toNat 0 reader1 with
      | (t2, .error s) => (t0 ++ [e] ++ t2, s)
      | (t2, .ok reader2) =>
        match finish env mapfile_fd h reader2 with
        | (t3, s) => (t0 ++ [e] ++ t2 ++ t3, s)

/-! ## The metadata stream format

The layout that `_start` consumes, as section 6 of the specification describes it:
8-byte little-endian words and length-prefixed strings. -/

/-- The eight bytes of a 64-bit word, least significant first. -/
def encodeWord (w : Nat) : List Nat :=
  [w % 256, w / 256 % 256, w / 256 ^ 2 % 256, w / 256 ^ 3 % 256,
   w / 256 ^ 4 % 256, w / 256 ^ 5 % 256, w / 256 ^ 6 % 256, w / 256 ^ 7 % 256]

/-- The value of a little-endian byte string. -/
def le64 : List Nat → Nat
  | [] => 0
  | b :: bs => b % 256 + 256 * le64 bs

/-- A region descriptor of the stream.  `path` holds the `N` bytes announced by the
length prefix and `term` the byte that follows them; `pageOffset` is present in the
stream only when `flag` is not zero. -/
structure Descriptor where
  start : Nat
  size : Nat
  prot : Nat
  path : List Nat
  term : Nat
  fileOffset : Nat
  flag : Nat
  pageOffset : Nat
  deriving DecidableEq, Repr

/-- Every field of the descriptor fits its place in the stream. -/
def Descriptor.Valid (d : Descriptor) : Prop :=
  d.start < two64 ∧ d.size < two64 ∧ d.prot < two64 ∧ d.path.length < two64 ∧
  d.fileOffset < two64 ∧ d.flag < two64 ∧ d.pageOffset < two64

instance (d : Descriptor) : Decidable d.Valid := by
  unfold Descriptor.Valid; infer_instance

/-- The optional last word of a descriptor. -/
def encodePageOffset (d : Descriptor) : List Nat :=
  if d.flag ≠ 0 then encodeWord d.pageOffset else []

/-- The bytes of a descriptor: start, size, protection, length-prefixed path with its
terminator, file offset, flag, and the page-data offset when the flag is set. -/
def encodeDesc (d : Descriptor) : List Nat :=
  encodeWord d.start ++ (encodeWord d.size ++ (encodeWord d.prot ++
    (encodeWord d.path.length ++ (d.path ++ (d.term :: (encodeWord d.fileOffset ++
      (encodeWord d.flag ++ encodePageOffset d)))))))

/-- The bytes of a list of descriptors, in order. -/
def encodeDescs : List Descriptor → List Nat
  | [] => []
  | d :: ds => encodeDesc d ++ encodeDescs ds

/-- The bytes of a list of words, in order. -/
def encodeWords : List Nat → List Nat
  | [] => []
  | w :: ws => encodeWord w ++ encodeWords ws

/-- A snapshot: the eighteen register words in stream order, the two thread-context
words, and the region descriptors. -/
structure Snapshot where
  regs : List Nat
  fsBase : Nat
  tidAddress : Nat
  regions : List Descriptor
  deriving DecidableEq, Repr

/-- The header words of a snapshot: registers, thread context, region count. -/
def Snapshot.headerWords (s : Snapshot) : List Nat :=
  s.regs ++ [s.fsBase, s.tidAddress, s.regions.length]

/-- The metadata stream of a snapshot: the header words, then the descriptors, and
nothing after them. -/
def encodeSnapshot (s : Snapshot) : List Nat :=
  encodeWords s.headerWords ++ encodeDescs s.regions

/-- A well-formed snapshot: eighteen register words, every word in 64-bit range, every
descriptor valid, and a region count that fits the `int` loop counter. -/
def Snapshot.Valid (s : Snapshot) : Prop :=
  s.regs.length = 18 ∧ (∀ w ∈ s.regs, w < two64) ∧ s.fsBase < two64 ∧
  s.tidAddress < two64 ∧ s.regions.length < 2 ^ 31 ∧ ∀ d ∈ s.regions, d.Valid

/-! ## Readers over a stream -/

/-- The reader over the first `k` bytes of the stream `S` mapped at `base`, with the
cursor `o` bytes into the stream. -/
def rd (S : List Nat) (base k o : Nat) : Reader :=
  { mapping_ := base, pos_ := base + o, end_ := base + k, buf := S.take k }

/-- A reader state as the constructor leaves it and `Get` keeps it: the cursor inside
the mapping, `end_` one past its last byte, and the mapping clear of the last eight
bytes of the address space. -/
def Reader.WF (r : Reader) : Prop :=
  r.mapping_ ≤ r.pos_ ∧ r.pos_ ≤ r.end_ ∧ r.end_ = r.mapping_ + r.buf.length ∧
  r.end_ + 8 < two64

instance (r : Reader) : Decidable r.WF := by
  unfold Reader.WF; infer_instance

/-- Two reader states over the same mapping: same base pointer, end pointer and bytes. -/
def Reader.sameMap (r r1 : Reader) : Prop :=
  r1.mapping_ = r.mapping_ ∧ r1.end_ = r.end_ ∧ r1.buf = r.buf

/-- The `i`-th 8-byte word of a byte stream, little-endian. -/
def wordAt (S : List Nat) (i : Nat) : Nat :=
  le64 ((S.drop (8 * i)).take 8)

/-! ## What a descriptor leads to -/

/-- The byte that `*filename` loads for a descriptor: the first path byte, or the
terminator when the path has no bytes. -/
def Descriptor.firstByte (d : Descriptor) : Nat :=
  (d.path ++ [d.term]).headD 0 % 256

/-- The branch of the loop body that a descriptor leads to. -/
def Descriptor.source (d : Descriptor) : Source :=
  if d.flag ≠ 0 then .dumpFile d.pageOffset
  else if d.firstByte ≠ 0 then .backingFile
  else .anonymous

/-- The locals of the loop iteration that consumes the descriptor `d`, whose path bytes
sit at address `filename`. -/
def Descriptor.decoded (d : Descriptor) (filename : Nat) : Region :=
  { addr := d.start, size := d.size, prot := d.prot, filename := filename,
    file_offset := d.fileOffset, source := d.source }

/-- The mapping request that a descriptor asks for: its start, size and protection, with
the flags and offset of the branch it leads to. -/
def Descriptor.request (d : Descriptor) : Nat × Nat × Nat × Nat × Nat :=
  match d.source with
  | .dumpFile mapfile_offset => (d.start, d.size, d.prot, MAP_PRIVATE, mapfile_offset)
  | .backingFile => (d.start, d.size, d.prot, MAP_PRIVATE, d.fileOffset)
  | .anonymous => (d.start, d.size, d.prot, MAP_PRIVATE ||| MAP_ANON, 0)

/-! ## Views of the trace -/

/-- The address, length, protection, flags and offset arguments of a `sys_mmap` call. -/
def Event.mmapRequest : Event → Option (Nat × Nat × Nat × Nat × Nat)
  | .sys_mmap addr len prot flags _ off _ => some (addr, len, prot, flags, off)
  | _ => none

/-- A `sys_mmap` call that returned an address other than the one it asked for. -/
def Event.misplaced : Event → Prop
  | .sys_mmap addr _ _ _ _ _ ret => ret ≠ addr
  | _ => False

instance (e : Event) : Decidable e.misplaced := by
  cases e <;> unfold Event.misplaced <;> infer_instance

/-- The events a loop iteration can issue: `sys_open` through a pointer into the
metadata mapping, `sys_mmap`, and `sys_close`. -/
def Event.isInstall : Event → Bool
  | .sys_open (.ptr _) _ _ _ => true
  | .sys_mmap .. => true
  | .sys_close .. => true
  | _ => false

/-- A reader over eight bytes `0xff` mapped at 4096: a length prefix of `2 ^ 64 - 1`
with nothing after it. -/
def readerAllOnes : Reader :=
  { mapping_ := 4096, pos_ := 4096, end_ := 4104,
    buf := [255, 255, 255, 255, 255, 255, 255, 255] }

/-- A reader over sixteen bytes mapped at 4096, cursor at the start. -/
def readerSixteen : Reader :=
  { mapping_ := 4096, pos_ := 4096, end_ := 4112,
    buf := [1, 2, 3, 4, 5, 6, 7, 8, 9, 10, 11, 12, 13, 14, 15, 16] }

/-- A descriptor with a two-byte path whose first byte is NUL, flag clear. -/
def descNulFirst : Descriptor :=
  { start := 8192, size := 4096, prot := 3, path := [0, 47], term := 0,
    fileOffset := 0, flag := 0, pageOffset := 0 }

/-- A descriptor with an empty path followed by the byte `0x41` instead of NUL, flag
clear. -/
def descBadTerm : Descriptor :=
  { start := 8192, size := 4096, prot := 3, path := [], term := 65,
    fileOffset := 0, flag := 0, pageOffset := 0 }

/-- A descriptor with the empty path, a NUL terminator and the flag clear. -/
def descAnon : Descriptor :=
  { start := 8192, size := 4096, prot := 3, path := [], term := 0,
    fileOffset := 0, flag := 0, pageOffset := 0 }

/-- A descriptor with the path `/a`, a NUL terminator and the flag clear. -/
def descFile : Descriptor :=
  { start := 8192, size := 4096, prot := 1, path := [47, 97], term := 0,
    fileOffset := 4096, flag := 0, pageOffset := 0 }

/-- A descriptor with the flag set and page-data offset 12288. -/
def descDump : Descriptor :=
  { start := 8192, size := 4096, prot := 3, path := [47, 97], term := 0,
    fileOffset := 0, flag := 1, pageOffset := 12288 }

/-- An environment in which every call succeeds, every region mapping lands at 8192 and
the metadata file is mapped at 4096; the selectors are those of 64-bit user mode and the
live RFLAGS has IF and the fixed bit 1 set, IOPL 0. -/
def envAt8192 (info : List Nat) : Env :=
  { info := info, openInfo := 3, fstatRc := 0, mmapInfo := 4096, closeInfo := 0,
    openPages := 4, mmapRet := fun _ => 8192, openRet := fun _ => 5, closeRet := fun _ => 0,
    munmapRc := 0, closePages := 0, prctlRc := 0, tidRc := 0, cs := 51, ss := 43,
    rflags := 0x202 }

/-- A snapshot with three regions, one for each branch of the loop body. -/
def sampleSnapshot : Snapshot :=
  { regs := [1, 2, 3, 4, 5, 6, 7, 8, 9, 10, 11, 12, 13, 14, 15, 16, 17, 18],
    fsBase := 19, tidAddress := 20, regions := [descFile, descDump, descAnon] }

/-- A snapshot without regions. -/
def emptySnapshot : Snapshot :=
  { regs := [1, 2, 3, 4, 5, 6, 7, 8, 9, 10, 11, 12, 13, 14, 15, 16, 17, 18],
    fsBase := 19, tidAddress := 20, regions := [] }

/-- The environment `envAt8192` over the sample snapshot, except that the mapping call
of the region with index 1 lands at 12288 instead of 8192. -/
def envSecondMisplaced : Env :=
  { envAt8192 (encodeSnapshot sampleSnapshot) with
    mmapRet := fun i => if i = 1 then 12288 else 8192 }

/-- The environment `envAt8192` over the first 200 bytes of the sample snapshot's
stream, which is 327 bytes long. -/
def envTruncated : Env :=
  envAt8192 ((encodeSnapshot sampleSnapshot).take 200)

/-- The environment `envAt8192` over the whole stream of the sample snapshot. -/
def envSample : Env :=
  envAt8192 (encodeSnapshot sampleSnapshot)

/-- A metadata file of exactly twenty-one words whose region-count word is `2 ^ 32`. -/
def overflowInfo : List Nat :=
  encodeWords [1, 2, 3, 4, 5, 6, 7, 8, 9, 10, 11, 12, 13, 14, 15, 16, 17, 18, 19, 20, 2 ^ 32]

/-- The register state that the sample files lead to under `envAt8192`. -/
def sampleHw : HwState :=
  { rax := 1, rcx := 2, rdx := 3, rbx := 4, rsp := 5, rbp := 6, rsi := 7, rdi := 8,
    r8 := 9, r9 := 10, r10 := 11, r11 := 12, r12 := 13, r13 := 14, r14 := 15, r15 := 16,
    rip := 17, rflags := 0x212, cs := 51, ss := 43 }

/-! ## Lemmas on words and loads -/

theorem encodeWord_length (w : Nat) : (encodeWord w).length = 8 := rfl

theorem le64_encodeWord (w : Nat) (hw : w < two64) : le64 (encodeWord w) = w := by
  simp only [encodeWord, le64, two64] at *
  norm_num
  omega

theorem load_rd (S : List Nat) (base k o a : Nat) (hk : k ≤ S.length) (ha : a < k) :
    (rd S base k o).load (base + a) = some (S.getD a 0 % 256) := by
  have h1 : a < S.length := by omega
  simp [Reader.load, rd, List.getElem?_take, ha, List.getD, List.getElem?_eq_getElem h1]

theorem loadLE_rd (S : List Nat) (base k o : Nat) (hk : k ≤ S.length)
    (hb : base + k < two64) :
    ∀ (n a : Nat), a + n ≤ k →
      (rd S base k o).loadLE n (base + a) = some (le64 ((S.drop a).take n)) := by
  intro n
  induction n with
  | zero => intro a _; simp [Reader.loadLE, le64]
  | succ n ih =>
    intro a ha
    have h1 : a < S.length := by omega
    have h2 : (base + a + 1) % two64 = base + (a + 1) := by
      rw [Nat.mod_eq_of_lt (by omega)]; omega
    rw [Reader.loadLE, load_rd S base k o a hk (by omega), h2, ih (a + 1) (by omega)]
    rw [List.drop_eq_getElem_cons h1]
    simp [le64, List.getD, List.getElem?_eq_getElem h1]

theorem take_of_drop_eq {S A rest : List Nat} {o : Nat} (h : S.drop o = A ++ rest) :
    (S.drop o).take A.length = A := by
  rw [h]; simp

theorem drop_add_of_drop_eq {S A rest : List Nat} {o : Nat} (h : S.drop o = A ++ rest) :
    S.drop (o + A.length) = rest := by
  rw [← List.drop_drop, h]; simp

theorem Get_rd (S : List Nat) (base k o w : Nat) (rest : List Nat) (hk : k ≤ S.length)
    (ho : o ≤ k) (hb : base + S.length + 8 < two64) (hw : w < two64)
    (hS : S.drop o = encodeWord w ++ rest) :
    (rd S base k o).Get =
      if o + 8 ≤ k then .ok (w, rd S base k (o + 8)) else .error .fatal := by
  have h1 : (base + o + 8) % two64 = base + o + 8 := Nat.mod_eq_of_lt (by omega)
  unfold Reader.Get
  simp only [rd, h1]
  by_cases h : o + 8 ≤ k
  · have h2 : base + o + 8 ≤ base + k := by omega
    have h3 := loadLE_rd S base k o hk (by omega) 8 o h
    have h4 := take_of_drop_eq hS
    rw [encodeWord_length] at h4
    rw [h4, le64_encodeWord w hw] at h3
    simp only [rd] at h3
    simp [h, h2, h3, Nat.add_assoc]
  · have h2 : ¬ base + o + 8 ≤ base + k := by omega
    simp [h, h2]

theorem rd_of_WF (r : Reader) (h : r.WF) :
    r = rd r.buf r.mapping_ r.buf.length (r.pos_ - r.mapping_) := by
  obtain ⟨h1, h2, h3, h4⟩ := h
  cases r with
  | mk m p e b =>
    simp only [rd] at *
    simp only [List.take_length, Reader.mk.injEq, and_true, true_and]
    omega

/-! ## Reader::Get -/

/-- C5. `Reader::Get` on a well-formed reader: with at least eight bytes between the
cursor and the mapped end it returns the little-endian value of the eight bytes at the
cursor and advances the cursor by exactly 8, the mapping pointer, the mapped end and
the buffer staying as they were; with fewer than eight bytes left it stops with the
fatal assertion failure and returns nothing. -/
theorem Get_spec (r : Reader) (hwf : r.WF) :
    (r.pos_ + 8 ≤ r.end_ →
      r.Get = .ok (le64 ((r.buf.drop (r.pos_ - r.mapping_)).take 8),
        { mapping_ := r.mapping_, pos_ := r.pos_ + 8, end_ := r.end_, buf := r.buf })) ∧
    (r.end_ < r.pos_ + 8 → r.Get = .error .fatal) := by
  have hrd := rd_of_WF r hwf
  obtain ⟨h1, h2, h3, h4⟩ := hwf
  have hmod : (r.pos_ + 8) % two64 = r.pos_ + 8 := Nat.mod_eq_of_lt (by omega)
  constructor
  · intro h
    have hl := loadLE_rd r.buf r.mapping_ r.buf.length (r.pos_ - r.mapping_) (le_refl _)
      (by omega) 8 (r.pos_ - r.mapping_) (by omega)
    rw [← hrd, show r.mapping_ + (r.pos_ - r.mapping_) = r.pos_ by omega] at hl
    unfold Reader.Get
    simp [hmod, h, hl]
  · intro h
    unfold Reader.Get
    have : ¬ r.pos_ + 8 ≤ r.end_ := by omega
    simp [hmod, this]

theorem Get_spec_witness :
    (readerSixteen.pos_ + 8 ≤ readerSixteen.end_ →
      readerSixteen.Get =
        .ok (le64 ((readerSixteen.buf.drop (readerSixteen.pos_ - readerSixteen.mapping_)).take 8),
          { mapping_ := readerSixteen.mapping_, pos_ := readerSixteen.pos_ + 8,
            end_ := readerSixteen.end_, buf := readerSixteen.buf })) ∧
    (readerSixteen.end_ < readerSixteen.pos_ + 8 → readerSixteen.Get = .error .fatal) :=
  Get_spec readerSixteen (by decide)

/-! ## Reader::GetString -/

/-- C4, at the failing input.  With the length prefix `2 ^ 64 - 1` the sum `len + 1`
wraps to 0: `GetString` passes its assertion and returns a view at the mapped end, the
cursor having advanced by 8 only, although the `N + 1` bytes of the view do not lie
inside the mapping. -/
theorem GetString_wraps :
    readerAllOnes.GetString =
      .ok (4104, { mapping_ := 4096, pos_ := 4104, end_ := 4104,
                   buf := [255, 255, 255, 255, 255, 255, 255, 255] }) ∧
    readerAllOnes.Get = .ok (2 ^ 64 - 1, { readerAllOnes with pos_ := 4104 }) ∧
    ¬ (4104 + (2 ^ 64 - 1) + 1 ≤ readerAllOnes.end_) := by
  decide

/-! ## Reading a descriptor from a (possibly truncated) stream -/

theorem length_of_drop_eq {S A : List Nat} {o : Nat} (h : S.drop o = A) (ho : o ≤ S.length) :
    S.length = o + A.length := by
  have := congrArg List.length h
  simp at this
  omega

theorem GetString_rd (S : List Nat) (base k o : Nat) (path : List Nat) (term : Nat)
    (rest : List Nat) (hk : k ≤ S.length) (ho : o ≤ k) (hb : base + S.length + 8 < two64)
    (hS : S.drop o = encodeWord path.length ++ (path ++ term :: rest)) :
    (rd S base k o).GetString =
      if o + 8 + path.length + 1 ≤ k then
        .ok (base + o + 8, rd S base k (o + 8 + path.length + 1))
      else .error .fatal := by
  have hlen := length_of_drop_eq hS (by omega)
  simp only [List.length_append, encodeWord_length, List.length_cons] at hlen
  have g := Get_rd S base k o path.length _ hk ho hb (by omega) hS
  unfold Reader.GetString
  rw [g]
  by_cases c : o + 8 ≤ k
  · have h1 : (path.length + 1) % two64 = path.length + 1 := Nat.mod_eq_of_lt (by omega)
    have h2 : (base + (o + 8) + (path.length + 1)) % two64 = base + (o + 8) + (path.length + 1) :=
      Nat.mod_eq_of_lt (by omega)
    simp only [c, if_true, rd, h1, h2]
    by_cases c2 : o + 8 + path.length + 1 ≤ k
    · have h3 : base + (o + 8) + (path.length + 1) ≤ base + k := by omega
      simp [c2, h3, Nat.add_assoc]
    · have h3 : ¬ base + (o + 8) + (path.length + 1) ≤ base + k := by omega
      simp [c2, h3]
  · have c2 : ¬ o + 8 + path.length + 1 ≤ k := by omega
    simp [c, c2]

theorem encodeDesc_length (d : Descriptor) :
    (encodeDesc d).length = 49 + d.path.length + (encodePageOffset d).length := by
  simp [encodeDesc, encodeWord_length]
  omega

theorem readRegion_rd (S : List Nat) (base k o : Nat) (d : Descriptor) (rest : List Nat)
    (hk : k ≤ S.length) (ho : o ≤ k) (hb : base + S.length + 8 < two64) (hd : d.Valid)
    (hS : S.drop o = encodeDesc d ++ rest) :
    readRegion (rd S base k o) =
      if o + (encodeDesc d).length ≤ k then
        .ok (d.decoded (base + o + 8 + 8 + 8 + 8), rd S base k (o + (encodeDesc d).length))
      else .error .fatal := by
  obtain ⟨v1, v2, v3, v4, v5, v6, v7⟩ := hd
  have hlen := length_of_drop_eq hS (by omega)
  rw [List.length_append, encodeDesc_length] at hlen
  simp only [encodeDesc, List.append_assoc, List.cons_append] at hS
  have s1 := drop_add_of_drop_eq hS
  have s2 := drop_add_of_drop_eq s1
  have s3 := drop_add_of_drop_eq s2
  have s4 := drop_add_of_drop_eq s3
  simp only [encodeWord_length] at s1 s2 s3 s4
  have s5 : S.drop (o + 8 + 8 + 8 + 8 + d.path.length + 1) =
      encodeWord d.fileOffset ++ (encodeWord d.flag ++ (encodePageOffset d ++ rest)) := by
    have := drop_add_of_drop_eq s4
    rw [← List.drop_drop, this]; rfl
  have s6 := drop_add_of_drop_eq s5
  have s7 := drop_add_of_drop_eq s6
  simp only [encodeWord_length] at s6 s7
  have g1 := Get_rd S base k o d.start _ hk ho hb v1 hS
  by_cases c1 : o + 8 ≤ k
  swap
  · have : ¬ o + (encodeDesc d).length ≤ k := by rw [encodeDesc_length]; omega
    simp [readRegion, g1, c1, this, bind, Except.bind]
  have g2 := Get_rd S base k (o + 8) d.size _ hk c1 hb v2 s1
  by_cases c2 : o + 8 + 8 ≤ k
  swap
  · have : ¬ o + (encodeDesc d).length ≤ k := by rw [encodeDesc_length]; omega
    simp [readRegion, g1, g2, c1, c2, this, bind, Except.bind]
  have g3 := Get_rd S base k (o + 8 + 8) d.prot _ hk c2 hb v3 s2
  by_cases c3 : o + 8 + 8 + 8 ≤ k
  swap
  · have : ¬ o + (encodeDesc d).length ≤ k := by rw [encodeDesc_length]; omega
    simp [readRegion, g1, g2, g3, c1, c2, c3, this, bind, Except.bind]
  have g4 := GetString_rd S base k (o + 8 + 8 + 8) d.path d.term _ hk c3 hb s3
  by_cases c4 : o + 8 + 8 + 8 + 8 + d.path.length + 1 ≤ k
  swap
  · have : ¬ o + (encodeDesc d).length ≤ k := by rw [encodeDesc_length]; omega
    simp [readRegion, g1, g2, g3, g4, c1, c2, c3, c4, this, bind, Except.bind]
  have g5 := Get_rd S base k _ d.fileOffset _ hk c4 hb v5 s5
  by_cases c5 : o + 8 + 8 + 8 + 8 + d.path.length + 1 + 8 ≤ k
  swap
  · have : ¬ o + (encodeDesc d).length ≤ k := by rw [encodeDesc_length]; omega
    simp [readRegion, g1, g2, g3, g4, g5, c1, c2, c3, c4, c5, this, bind, Except.bind]
  have g6 := Get_rd S base k _ d.flag _ hk c5 hb v6 s6
  by_cases c6 : o + 8 + 8 + 8 + 8 + d.path.length + 1 + 8 + 8 ≤ k
  swap
  · have : ¬ o + (encodeDesc d).length ≤ k := by rw [encodeDesc_length]; omega
    simp [readRegion, g1, g2, g3, g4, g5, g6, c1, c2, c3, c4, c5, c6, this, bind, Except.bind]
  have hfn : base + (o + 8 + 8 + 8) + 8 = base + o + 8 + 8 + 8 + 8 := by omega
  by_cases hf : d.flag = 0
  · have hpo : encodePageOffset d = [] := by simp [encodePageOffset, hf]
    have hL : (encodeDesc d).length = 8 + 8 + 8 + 8 + d.path.length + 1 + 8 + 8 := by
      rw [encodeDesc_length, hpo]; simp; omega
    have c7 : o + (encodeDesc d).length ≤ k := by rw [hL]; omega
    have hload := load_rd S base k (o + 8 + 8 + 8 + 8 + d.path.length + 1 + 8 + 8)
      (o + 8 + 8 + 8 + 8) hk (by omega)
    have hget : S.getD (o + 8 + 8 + 8 + 8) 0 = (d.path ++ [d.term]).headD 0 := by
      have h1 : S.getD (o + 8 + 8 + 8 + 8) 0 = (S.drop (o + 8 + 8 + 8 + 8)).headD 0 := by
        have hlt : o + 8 + 8 + 8 + 8 < S.length := by omega
        rw [List.drop_eq_getElem_cons hlt]
        simp [List.getD, List.getElem?_eq_getElem hlt]
      rw [h1, s4]
      cases d.path <;> rfl
    have hload2 : (rd S base k (o + 8 + 8 + 8 + 8 + d.path.length + 1 + 8 + 8)).load
        (base + o + 8 + 8 + 8 + 8) = some d.firstByte := by
      unfold Descriptor.firstByte
      rw [← hget, ← hload]; congr 1
    have hoff : o + (encodeDesc d).length = o + 8 + 8 + 8 + 8 + d.path.length + 1 + 8 + 8 := by
      rw [hL]; omega
    simp only [readRegion, g1, g2, g3, g4, g5, g6, c1, c2, c3, c4, c5, c6, c7, bind,
      Except.bind, if_true, hf, hfn, hload2, hoff]
    by_cases hb0 : d.firstByte = 0
    · simp [hb0, Descriptor.decoded, Descriptor.source, hf, pure, Except.pure]
    · simp [hb0, Descriptor.decoded, Descriptor.source, hf, pure, Except.pure]
  · have hpo : encodePageOffset d = encodeWord d.pageOffset := by simp [encodePageOffset, hf]
    rw [hpo] at s7
    have hL : (encodeDesc d).length = 8 + 8 + 8 + 8 + d.path.length + 1 + 8 + 8 + 8 := by
      rw [encodeDesc_length, hpo, encodeWord_length]; omega
    have g7 := Get_rd S base k _ d.pageOffset _ hk c6 hb v7 s7
    have hoff : o + (encodeDesc d).length = o + 8 + 8 + 8 + 8 + d.path.length + 1 + 8 + 8 + 8 := by
      rw [hL]; omega
    simp only [readRegion, g1, g2, g3, g4, g5, g6, g7, c1, c2, c3, c4, c5, c6, bind,
      Except.bind, if_true, hf, hfn, hoff]
    by_cases c7 : o + 8 + 8 + 8 + 8 + d.path.length + 1 + 8 + 8 + 8 ≤ k
    · simp [c7, Descriptor.decoded, Descriptor.source, hf, pure, Except.pure]
    · simp [c7, hf]

theorem drop_length_append (pre A : List Nat) : (pre ++ A).drop pre.length = A := by
  simp

/-! ## Source selection -/

/-- C1, as the code has it.  For every valid descriptor `d` found in the stream at the
cursor, the reads of the loop iteration succeed and the branch taken is: the dump-file
(embedded data) branch exactly when the flag word is not zero, whatever the path; else
the backing-file branch exactly when the byte at the start of the string view, which is
the first path byte or the terminator of an empty path, is not zero; else the anonymous
branch.  When the terminator is NUL and no path byte is NUL, that byte is non-zero
exactly when the path has at least one byte, so the empty path with a NUL terminator and
a clear flag is mapped anonymously. -/
theorem source_selection (pre rest : List Nat) (d : Descriptor) (base : Nat) (hd : d.Valid)
    (hb : base + (pre ++ (encodeDesc d ++ rest)).length + 8 < two64) :
    ∃ m r1, readRegion (rd (pre ++ (encodeDesc d ++ rest)) base
        (pre ++ (encodeDesc d ++ rest)).length pre.length) = .ok (m, r1) ∧
      (m.source = .dumpFile d.pageOffset ↔ d.flag ≠ 0) ∧
      (m.source = .backingFile ↔ d.flag = 0 ∧ d.firstByte ≠ 0) ∧
      (m.source = .anonymous ↔ d.flag = 0 ∧ d.firstByte = 0) ∧
      (d.term = 0 → (∀ b ∈ d.path, b % 256 ≠ 0) → (d.firstByte ≠ 0 ↔ 0 < d.path.length)) := by
  have hS := drop_length_append pre (encodeDesc d ++ rest)
  have h := readRegion_rd _ base (pre ++ (encodeDesc d ++ rest)).length pre.length d rest
    (le_refl _) (by simp) hb hd hS
  have hfit : pre.length + (encodeDesc d).length ≤ (pre ++ (encodeDesc d ++ rest)).length := by
    simp
  rw [if_pos hfit] at h
  refine ⟨_, _, h, ?_, ?_, ?_, ?_⟩
  · simp only [Descriptor.decoded, Descriptor.source]
    split_ifs <;> simp_all
  · simp only [Descriptor.decoded, Descriptor.source]
    split_ifs <;> simp_all
  · simp only [Descriptor.decoded, Descriptor.source]
    split_ifs <;> simp_all
  · intro ht hp
    unfold Descriptor.firstByte
    cases hpath : d.path with
    | nil => simp [ht]
    | cons b bs =>
      have := hp b (by rw [hpath]; simp)
      simp [this]

theorem source_selection_witness :
    descFile.Valid ∧
    ∃ m r1, readRegion (rd ([] ++ (encodeDesc descFile ++ [])) 4096
        ([] ++ (encodeDesc descFile ++ [])).length ([] : List Nat).length) = .ok (m, r1) ∧
      (m.source = .dumpFile descFile.pageOffset ↔ descFile.flag ≠ 0) ∧
      (m.source = .backingFile ↔ descFile.flag = 0 ∧ descFile.firstByte ≠ 0) ∧
      (m.source = .anonymous ↔ descFile.flag = 0 ∧ descFile.firstByte = 0) ∧
      (descFile.term = 0 → (∀ b ∈ descFile.path, b % 256 ≠ 0) →
        (descFile.firstByte ≠ 0 ↔ 0 < descFile.path.length)) :=
  ⟨by decide, source_selection [] [] descFile 4096 (by decide) (by decide)⟩

/-- C1 as stated fails.  A descriptor whose length prefix is 2 and whose first path byte
is NUL has a non-empty path and a clear flag, yet the anonymous branch is taken; a
descriptor with length prefix 0 followed by the byte `0x41` has the empty path and a
clear flag, yet the backing-file branch is taken. -/
theorem source_selection_not_by_length :
    (0 < descNulFirst.path.length ∧ descNulFirst.flag = 0 ∧
      (readRegion (rd (encodeDesc descNulFirst) 4096 (encodeDesc descNulFirst).length 0)).map
        (fun x => x.1.source) = .ok .anonymous) ∧
    (descBadTerm.path.length = 0 ∧ descBadTerm.flag = 0 ∧
      (readRegion (rd (encodeDesc descBadTerm) 4096 (encodeDesc descBadTerm).length 0)).map
        (fun x => x.1.source) = .ok .backingFile) := by
  decide

/-! ## One loop iteration -/

theorem installRegion_ok_request (env : Env) (fd : Int) (i : Nat) (m : Region) (evs : List Event)
    (h : installRegion env fd i m = (evs, true)) :
    env.mmapRet i = m.addr ∧
    evs.filterMap Event.mmapRequest =
      [match m.source with
        | .dumpFile off => (m.addr, m.size, m.prot, MAP_PRIVATE, off)
        | .backingFile => (m.addr, m.size, m.prot, MAP_PRIVATE, m.file_offset)
        | .anonymous => (m.addr, m.size, m.prot, MAP_PRIVATE ||| MAP_ANON, 0)] ∧
    (∀ e ∈ evs, e.isInstall = true) ∧ (∀ e ∈ evs, ¬ e.misplaced) := by
  unfold installRegion at h
  cases hs : m.source with
  | dumpFile off =>
    simp only [hs, Prod.mk.injEq, decide_eq_true_eq] at h
    obtain ⟨h1, h2⟩ := h
    subst h1
    simp [Event.mmapRequest, Event.isInstall, Event.misplaced, h2]
  | backingFile =>
    simp only [hs] at h
    split_ifs at h with c1 c2
    · simp at h
    · simp at h
    · simp only [Prod.mk.injEq, decide_eq_true_eq] at h
      obtain ⟨h1, h2⟩ := h
      subst h1
      simp only [ne_eq, Decidable.not_not] at c2
      simp [Event.mmapRequest, Event.isInstall, Event.misplaced, c2]
  | anonymous =>
    simp only [hs, Prod.mk.injEq, decide_eq_true_eq] at h
    obtain ⟨h1, h2⟩ := h
    subst h1
    simp [Event.mmapRequest, Event.isInstall, Event.misplaced, h2]

theorem installRegion_misplaced_last (env : Env) (fd : Int) (i : Nat) (m : Region)
    (pre post : List Event) (e : Event)
    (h : (installRegion env fd i m).1 = pre ++ e :: post) (he : e.misplaced) :
    post = [] ∧ (installRegion env fd i m).2 = false := by
  unfold installRegion at h ⊢
  cases hs : m.source with
  | dumpFile off =>
    simp only [hs] at h ⊢
    rcases pre with _ | ⟨p, pre⟩
    · simp only [List.nil_append, List.cons.injEq] at h
      obtain ⟨h1, h2⟩ := h
      subst h1
      simp only [Event.misplaced] at he
      simp [h2.symm, he]
    · simp at h
  | backingFile =>
    simp only [hs] at h ⊢
    split_ifs at h ⊢ with c1 c2
    · rcases pre with _ | ⟨p, pre⟩
      · simp only [List.nil_append, List.cons.injEq] at h
        rw [← h.1] at he
        simp [Event.misplaced] at he
      · simp at h
    · rcases pre with _ | ⟨p, _ | ⟨p2, pre⟩⟩
      · simp only [List.nil_append, List.cons.injEq] at h
        rw [← h.1] at he
        simp [Event.misplaced] at he
      · simp only [List.cons_append, List.nil_append, List.cons.injEq] at h
        simp [h.2.2.symm]
      · simp at h
    · simp only [ne_eq, Decidable.not_not] at c2
      rcases pre with _ | ⟨p, _ | ⟨p2, _ | ⟨p3, pre⟩⟩⟩
      · simp only [List.nil_append, List.cons.injEq] at h
        rw [← h.1] at he
        simp [Event.misplaced] at he
      · simp only [List.cons_append, List.nil_append, List.cons.injEq] at h
        rw [← h.2.1] at he
        simp [Event.misplaced, c2] at he
      · simp only [List.cons_append, List.nil_append, List.cons.injEq] at h
        rw [← h.2.2.1] at he
        simp [Event.misplaced] at he
      · simp at h
  | anonymous =>
    simp only [hs] at h ⊢
    rcases pre with _ | ⟨p, pre⟩
    · simp only [List.nil_append, List.cons.injEq] at h
      obtain ⟨h1, h2⟩ := h
      subst h1
      simp only [Event.misplaced] at he
      simp [h2.symm, he]
    · simp at h

/-! ## The region loop -/

theorem mapLoop_succ (env : Env) (fd : Int) (n i : Nat) (r : Reader) :
    mapLoop env fd (n + 1) i r =
      match readRegion r with
      | .error e => ([], .error e)
      | .ok (m, r1) =>
        match installRegion env fd i m with
        | (evs, false) => (evs, .error .fatal)
        | (evs, true) =>
          ((evs ++ (mapLoop env fd n (i + 1) r1).1), (mapLoop env fd n (i + 1) r1).2) := by
  rw [mapLoop]

theorem mapLoop_ok (env : Env) (fd : Int) :
    ∀ (n i : Nat) (r r1 : Reader) (tr : List Event),
      mapLoop env fd n i r = (tr, .ok r1) →
        (tr.filterMap Event.mmapRequest).length = n ∧
        (∀ e ∈ tr, e.isInstall = true) ∧ (∀ e ∈ tr, ¬ e.misplaced) := by
  intro n
  induction n with
  | zero =>
    intro i r r1 tr h
    simp only [mapLoop, Prod.mk.injEq] at h
    simp [← h.1]
  | succ n ih =>
    intro i r r1 tr h
    rw [mapLoop_succ] at h
    cases hr : readRegion r with
    | error e => simp [hr] at h
    | ok v =>
      obtain ⟨m, r2⟩ := v
      simp only [hr] at h
      cases hI : installRegion env fd i m with
      | mk evs b =>
        cases b with
        | false => simp [hI] at h
        | true =>
          simp only [hI, Prod.mk.injEq] at h
          obtain ⟨h1, h2⟩ := h
          have hi := installRegion_ok_request env fd i m evs hI
          have ih2 := ih (i + 1) r2 r1 (mapLoop env fd n (i + 1) r2).1
            (by rw [← h2])
          subst h1
          refine ⟨?_, ?_, ?_⟩
          · rw [List.filterMap_append, List.length_append, hi.2.1, ih2.1]
            simp; omega
          · intro e he
            rcases List.mem_append.mp he with h3 | h3
            · exact hi.2.2.1 e h3
            · exact ih2.2.1 e h3
          · intro e he
            rcases List.mem_append.mp he with h3 | h3
            · exact hi.2.2.2 e h3
            · exact ih2.2.2 e h3

theorem mapLoop_misplaced_last (env : Env) (fd : Int) :
    ∀ (n i : Nat) (r : Reader) (pre post : List Event) (e : Event),
      (mapLoop env fd n i r).1 = pre ++ e :: post → e.misplaced →
        post = [] ∧ (mapLoop env fd n i r).2 = .error .fatal := by
  intro n
  induction n with
  | zero =>
    intro i r pre post e h _
    simp [mapLoop] at h
  | succ n ih =>
    intro i r pre post e h he
    rw [mapLoop_succ] at h ⊢
    cases hr : readRegion r with
    | error s => simp [hr] at h
    | ok v =>
      obtain ⟨m, r2⟩ := v
      simp only [hr] at h ⊢
      cases hI : installRegion env fd i m with
      | mk evs b =>
        have hlast := installRegion_misplaced_last env fd i m
        rw [hI] at hlast
        cases b with
        | false =>
          simp only [hI] at h ⊢
          exact ⟨(hlast pre post e h he).1, trivial⟩
        | true =>
          simp only [hI] at h ⊢
          have hok := (installRegion_ok_request env fd i m evs hI).2.2.2
          rcases List.append_eq_append_iff.mp h with ⟨a, h1, h2⟩ | ⟨c, h1, h2⟩
          · exact ih (i + 1) r2 a post e h2 he
          · rcases c with _ | ⟨c0, c⟩
            · simp only [List.nil_append] at h2
              exact ih (i + 1) r2 [] post e (by simpa using h2.symm) he
            · simp only [List.cons_append, List.cons.injEq] at h2
              exfalso
              apply hok e _ he
              rw [h1, h2.1]
              simp

theorem installRegion_success (env : Env) (fd : Int) (i : Nat) (m : Region)
    (hm : env.mmapRet i = m.addr) (ho : 0 ≤ env.openRet i) (hc : env.closeRet i = 0) :
    (installRegion env fd i m).2 = true := by
  unfold installRegion
  cases hs : m.source with
  | dumpFile off => simp [hm]
  | backingFile =>
    have : ¬ env.openRet i < 0 := by omega
    simp [hm, hc, this]
  | anonymous => simp [hm]

theorem encodeDescs_cons_drop {S rest : List Nat} {o : Nat} {d : Descriptor}
    {ds : List Descriptor} (h : S.drop o = encodeDescs (d :: ds) ++ rest) :
    S.drop o = encodeDesc d ++ (encodeDescs ds ++ rest) ∧
    S.drop (o + (encodeDesc d).length) = encodeDescs ds ++ rest := by
  have h1 : S.drop o = encodeDesc d ++ (encodeDescs ds ++ rest) := by
    rw [h, encodeDescs, List.append_assoc]
  exact ⟨h1, drop_add_of_drop_eq h1⟩

theorem mapLoop_rd_cases (env : Env) (fd : Int) (S : List Nat) (base k : Nat)
    (hk : k ≤ S.length) (hb : base + S.length + 8 < two64) :
    ∀ (ds : List Descriptor) (i o : Nat) (rest : List Nat),
      S.drop o = encodeDescs ds ++ rest → (∀ d ∈ ds, d.Valid) → o ≤ k →
        (mapLoop env fd ds.length i (rd S base k o)).2 = .error .fatal ∨
        (o + (encodeDescs ds).length ≤ k ∧
          (mapLoop env fd ds.length i (rd S base k o)).2 =
            .ok (rd S base k (o + (encodeDescs ds).length))) := by
  intro ds
  induction ds with
  | nil =>
    intro i o rest _ _ ho
    right
    simp [mapLoop, encodeDescs, ho]
  | cons d ds ih =>
    intro i o rest hS hv ho
    obtain ⟨h1, h2⟩ := encodeDescs_cons_drop hS
    have hr := readRegion_rd S base k o d _ hk ho hb (hv d (by simp)) h1
    rw [List.length_cons, mapLoop_succ, hr]
    by_cases c : o + (encodeDesc d).length ≤ k
    · simp only [c, if_true]
      cases hI : installRegion env fd i (d.decoded (base + o + 8 + 8 + 8 + 8)) with
      | mk evs b =>
        cases b with
        | false => left; rfl
        | true =>
          simp only []
          have := ih (i + 1) (o + (encodeDesc d).length) rest h2
            (fun x hx => hv x (by simp [hx])) c
          simp only [encodeDescs, List.length_append]
          rw [← Nat.add_assoc]
          exact this
    · left
      simp [c]

theorem decoded_request (d : Descriptor) (fn : Nat) :
    (match (d.decoded fn).source with
      | .dumpFile off => ((d.decoded fn).addr, (d.decoded fn).size, (d.decoded fn).prot,
          MAP_PRIVATE, off)
      | .backingFile => ((d.decoded fn).addr, (d.decoded fn).size, (d.decoded fn).prot,
          MAP_PRIVATE, (d.decoded fn).file_offset)
      | .anonymous => ((d.decoded fn).addr, (d.decoded fn).size, (d.decoded fn).prot,
          MAP_PRIVATE ||| MAP_ANON, 0)) = d.request := by
  simp only [Descriptor.decoded, Descriptor.request]

theorem mapLoop_rd_ok (env : Env) (fd : Int) (S : List Nat) (base : Nat)
    (hb : base + S.length + 8 < two64) (hopen : ∀ j, 0 ≤ env.openRet j)
    (hclose : ∀ j, env.closeRet j = 0) :
    ∀ (ds : List Descriptor) (i o : Nat) (rest : List Nat),
      S.drop o = encodeDescs ds ++ rest → (∀ d ∈ ds, d.Valid) → o ≤ S.length →
      (∀ j d, ds[j]? = some d → env.mmapRet (i + j) = d.start) →
        (mapLoop env fd ds.length i (rd S base S.length o)).2 =
          .ok (rd S base S.length (o + (encodeDescs ds).length)) ∧
        (mapLoop env fd ds.length i (rd S base S.length o)).1.filterMap Event.mmapRequest =
          ds.map Descriptor.request := by
  intro ds
  induction ds with
  | nil =>
    intro i o rest _ _ _ _
    simp [mapLoop, encodeDescs]
  | cons d ds ih =>
    intro i o rest hS hv ho hm
    obtain ⟨h1, h2⟩ := encodeDescs_cons_drop hS
    have hlen := length_of_drop_eq h1 ho
    rw [List.length_append] at hlen
    have hr := readRegion_rd S base S.length o d _ (le_refl _) ho hb (hv d (by simp)) h1
    rw [if_pos (by omega)] at hr
    rw [List.length_cons, mapLoop_succ, hr]
    have hm0 : env.mmapRet i = (d.decoded (base + o + 8 + 8 + 8 + 8)).addr := by
      have := hm 0 d (by simp)
      simpa [Descriptor.decoded] using this
    have hsucc := installRegion_success env fd i (d.decoded (base + o + 8 + 8 + 8 + 8)) hm0
      (hopen i) (hclose i)
    cases hI : installRegion env fd i (d.decoded (base + o + 8 + 8 + 8 + 8)) with
    | mk evs b =>
      rw [hI] at hsucc
      simp only at hsucc
      subst hsucc
      have hreq := (installRegion_ok_request env fd i _ evs hI).2.1
      rw [decoded_request] at hreq
      have := ih (i + 1) (o + (encodeDesc d).length) rest h2
        (fun x hx => hv x (by simp [hx])) (by omega)
        (fun j x hx => by
          have := hm (j + 1) x (by simpa using hx)
          rw [← this]; congr 1; omega)
      simp only [hI, encodeDescs, List.length_append, List.filterMap_append, List.map_cons]
      rw [← Nat.add_assoc, this.1, this.2, hreq]
      simp

/-! ## The header reads -/

theorem Get_rd_word (S : List Nat) (base k o : Nat) (hk : k ≤ S.length) (ho : o ≤ k)
    (hb : base + S.length + 8 < two64) :
    (rd S base k o).Get =
      if o + 8 ≤ k then .ok (le64 ((S.drop o).take 8), rd S base k (o + 8))
      else .error .fatal := by
  have h1 : (base + o + 8) % two64 = base + o + 8 := Nat.mod_eq_of_lt (by omega)
  unfold Reader.Get
  simp only [rd, h1]
  by_cases h : o + 8 ≤ k
  · have h2 : base + o + 8 ≤ base + k := by omega
    have h3 := loadLE_rd S base k o hk (by omega) 8 o h
    simp only [rd] at h3
    simp [h, h2, h3, Nat.add_assoc]
  · have h2 : ¬ base + o + 8 ≤ base + k := by omega
    simp [h, h2]

theorem readHeader_rd (S : List Nat) (base k : Nat)
    (hk : k ≤ S.length) (hb : base + S.length + 8 < two64) :
    readHeader (rd S base k 0) =
      if 168 ≤ k then
        .ok ({ regs :=
                 { rax := wordAt S 0, rcx := wordAt S 1, rdx := wordAt S 2, rbx := wordAt S 3,
                   rbp := wordAt S 5, rsi := wordAt S 6, rdi := wordAt S 7, r8 := wordAt S 8,
                   r9 := wordAt S 9, r10 := wordAt S 10, r11 := wordAt S 11,
                   r12 := wordAt S 12, r13 := wordAt S 13, r14 := wordAt S 14,
                   r15 := wordAt S 15, rip := wordAt S 16, cs := 0, flags := wordAt S 17,
                   rsp := wordAt S 4, ss := 0 },
               fs_segment_base := wordAt S 18, tid_address := wordAt S 19,
               mapping_count := toInt32 (wordAt S 20) },
             rd S base k 168)
      else .error .fatal := by
  have g0 := Get_rd_word S base k (0) hk (Nat.zero_le _) hb
  by_cases c0 : 0 + 8 ≤ k
  swap
  · have hn : ¬ 168 ≤ k := by omega
    simp only [readHeader, g0, c0, hn, bind, Except.bind, if_true, if_false]
  have g1 := Get_rd_word S base k (0 + 8) hk c0 hb
  by_cases c1 : 0 + 8 + 8 ≤ k
  swap
  · have hn : ¬ 168 ≤ k := by omega
    simp only [readHeader, g0, g1, c0, c1, hn, bind, Except.bind, if_true, if_false]
  have g2 := Get_rd_word S base k (0 + 8 + 8) hk c1 hb
  by_cases c2 : 0 + 8 + 8 + 8 ≤ k
  swap
  · have hn : ¬ 168 ≤ k := by omega
    simp only [readHeader, g0, g1, g2, c0, c1, c2, hn, bind, Except.bind, if_true, if_false]
  have g3 := Get_rd_word S base k (0 + 8 + 8 + 8) hk c2 hb
  by_cases c3 : 0 + 8 + 8 + 8 + 8 ≤ k
  swap
  · have hn : ¬ 168 ≤ k := by omega
    simp only [readHeader, g0, g1, g2, g3, c0, c1, c2, c3, hn, bind, Except.bind, if_true, if_false]
  have g4 := Get_rd_word S base k (0 + 8 + 8 + 8 + 8) hk c3 hb
  by_cases c4 : 0 + 8 + 8 + 8 + 8 + 8 ≤ k
  swap
  · have hn : ¬ 168 ≤ k := by omega
    simp only [readHeader, g0, g1, g2, g3, g4, c0, c1, c2, c3, c4, hn, bind, Except.bind, if_true, if_false]
  have g5 := Get_rd_word S base k (0 + 8 + 8 + 8 + 8 + 8) hk c4 hb
  by_cases c5 : 0 + 8 + 8 + 8 + 8 + 8 + 8 ≤ k
  swap
  · have hn : ¬ 168 ≤ k := by omega
    simp only [readHeader, g0, g1, g2, g3, g4, g5, c0, c1, c2, c3, c4, c5, hn, bind, Except.bind, if_true, if_false]
  have g6 := Get_rd_word S base k (0 + 8 + 8 + 8 + 8 + 8 + 8) hk c5 hb
  by_cases c6 : 0 + 8 + 8 + 8 + 8 + 8 + 8 + 8 ≤ k
  swap
  · have hn : ¬ 168 ≤ k := by omega
    simp only [readHeader, g0, g1, g2, g3, g4, g5, g6, c0, c1, c2, c3, c4, c5, c6, hn, bind, Except.bind, if_true, if_false]
  have g7 := Get_rd_word S base k (0 + 8 + 8 + 8 + 8 + 8 + 8 + 8) hk c6 hb
  by_cases c7 : 0 + 8 + 8 + 8 + 8 + 8 + 8 + 8 + 8 ≤ k
  swap
  · have hn : ¬ 168 ≤ k := by omega
    simp only [readHeader, g0, g1, g2, g3, g4, g5, g6, g7, c0, c1, c2, c3, c4, c5, c6, c7, hn, bind, Except.bind, if_true, if_false]
  have g8 := Get_rd_word S base k (0 + 8 + 8 + 8 + 8 + 8 + 8 + 8 + 8) hk c7 hb
  by_cases c8 : 0 + 8 + 8 + 8 + 8 + 8 + 8 + 8 + 8 + 8 ≤ k
  swap
  · have hn : ¬ 168 ≤ k := by omega
    simp only [readHeader, g0, g1, g2, g3, g4, g5, g6, g7, g8, c0, c1, c2, c3, c4, c5, c6, c7, c8, hn, bind, Except.bind, if_true, if_false]
  have g9 := Get_rd_word S base k (0 + 8 + 8 + 8 + 8 + 8 + 8 + 8 + 8 + 8) hk c8 hb
  by_cases c9 : 0 + 8 + 8 + 8 + 8 + 8 + 8 + 8 + 8 + 8 + 8 ≤ k
  swap
  · have hn : ¬ 168 ≤ k := by omega
    simp only [readHeader, g0, g1, g2, g3, g4, g5, g6, g7, g8, g9, c0, c1, c2, c3, c4, c5, c6, c7, c8, c9, hn, bind, Except.bind, if_true, if_false]
  have g10 := Get_rd_word S base k (0 + 8 + 8 + 8 + 8 + 8 + 8 + 8 + 8 + 8 + 8) hk c9 hb
  by_cases c10 : 0 + 8 + 8 + 8 + 8 + 8 + 8 + 8 + 8 + 8 + 8 + 8 ≤ k
  swap
  · have hn : ¬ 168 ≤ k := by omega
    simp only [readHeader, g0, g1, g2, g3, g4, g5, g6, g7, g8, g9, g10, c0, c1, c2, c3, c4, c5, c6, c7, c8, c9, c10, hn, bind, Except.bind, if_true, if_false]
  have g11 := Get_rd_word S base k (0 + 8 + 8 + 8 + 8 + 8 + 8 + 8 + 8 + 8 + 8 + 8) hk c10 hb
  by_cases c11 : 0 + 8 + 8 + 8 + 8 + 8 + 8 + 8 + 8 + 8 + 8 + 8 + 8 ≤ k
  swap
  · have hn : ¬ 168 ≤ k := by omega
    simp only [readHeader, g0, g1, g2, g3, g4, g5, g6, g7, g8, g9, g10, g11, c0, c1, c2, c3, c4, c5, c6, c7, c8, c9, c10, c11, hn, bind, Except.bind, if_true, if_false]
  have g12 := Get_rd_word S base k (0 + 8 + 8 + 8 + 8 + 8 + 8 + 8 + 8 + 8 + 8 + 8 + 8) hk c11 hb
  by_cases c12 : 0 + 8 + 8 + 8 + 8 + 8 + 8 + 8 + 8 + 8 + 8 + 8 + 8 + 8 ≤ k
  swap
  · have hn : ¬ 168 ≤ k := by omega
    simp only [readHeader, g0, g1, g2, g3, g4, g5, g6, g7, g8, g9, g10, g11, g12, c0, c1, c2, c3, c4, c5, c6, c7, c8, c9, c10, c11, c12, hn, bind, Except.bind, if_true, if_false]
  have g13 := Get_rd_word S base k (0 + 8 + 8 + 8 + 8 + 8 + 8 + 8 + 8 + 8 + 8 + 8 + 8 + 8) hk c12 hb
  by_cases c13 : 0 + 8 + 8 + 8 + 8 + 8 + 8 + 8 + 8 + 8 + 8 + 8 + 8 + 8 + 8 ≤ k
  swap
  · have hn : ¬ 168 ≤ k := by omega
    simp only [readHeader, g0, g1, g2, g3, g4, g5, g6, g7, g8, g9, g10, g11, g12, g13, c0, c1, c2, c3, c4, c5, c6, c7, c8, c9, c10, c11, c12, c13, hn, bind, Except.bind, if_true, if_false]
  have g14 := Get_rd_word S base k (0 + 8 + 8 + 8 + 8 + 8 + 8 + 8 + 8 + 8 + 8 + 8 + 8 + 8 + 8) hk c13 hb
  by_cases c14 : 0 + 8 + 8 + 8 + 8 + 8 + 8 + 8 + 8 + 8 + 8 + 8 + 8 + 8 + 8 + 8 ≤ k
  swap
  · have hn : ¬ 168 ≤ k := by omega
    simp only [readHeader, g0, g1, g2, g3, g4, g5, g6, g7, g8, g9, g10, g11, g12, g13, g14, c0, c1, c2, c3, c4, c5, c6, c7, c8, c9, c10, c11, c12, c13, c14, hn, bind, Except.bind, if_true, if_false]
  have g15 := Get_rd_word S base k (0 + 8 + 8 + 8 + 8 + 8 + 8 + 8 + 8 + 8 + 8 + 8 + 8 + 8 + 8 + 8) hk c14 hb
  by_cases c15 : 0 + 8 + 8 + 8 + 8 + 8 + 8 + 8 + 8 + 8 + 8 + 8 + 8 + 8 + 8 + 8 + 8 ≤ k
  swap
  · have hn : ¬ 168 ≤ k := by omega
    simp only [readHeader, g0, g1, g2, g3, g4, g5, g6, g7, g8, g9, g10, g11, g12, g13, g14, g15, c0, c1, c2, c3, c4, c5, c6, c7, c8, c9, c10, c11, c12, c13, c14, c15, hn, bind, Except.bind, if_true, if_false]
  have g16 := Get_rd_word S base k (0 + 8 + 8 + 8 + 8 + 8 + 8 + 8 + 8 + 8 + 8 + 8 + 8 + 8 + 8 + 8 + 8) hk c15 hb
  by_cases c16 : 0 + 8 + 8 + 8 + 8 + 8 + 8 + 8 + 8 + 8 + 8 + 8 + 8 + 8 + 8 + 8 + 8 + 8 ≤ k
  swap
  · have hn : ¬ 168 ≤ k := by omega
    simp only [readHeader, g0, g1, g2, g3, g4, g5, g6, g7, g8, g9, g10, g11, g12, g13, g14, g15, g16, c0, c1, c2, c3, c4, c5, c6, c7, c8, c9, c10, c11, c12, c13, c14, c15, c16, hn, bind, Except.bind, if_true, if_false]
  have g17 := Get_rd_word S base k (0 + 8 + 8 + 8 + 8 + 8 + 8 + 8 + 8 + 8 + 8 + 8 + 8 + 8 + 8 + 8 + 8 + 8) hk c16 hb
  by_cases c17 : 0 + 8 + 8 + 8 + 8 + 8 + 8 + 8 + 8 + 8 + 8 + 8 + 8 + 8 + 8 + 8 + 8 + 8 + 8 ≤ k
  swap
  · have hn : ¬ 168 ≤ k := by omega
    simp only [readHeader, g0, g1, g2, g3, g4, g5, g6, g7, g8, g9, g10, g11, g12, g13, g14, g15, g16, g17, c0, c1, c2, c3, c4, c5, c6, c7, c8, c9, c10, c11, c12, c13, c14, c15, c16, c17, hn, bind, Except.bind, if_true, if_false]
  have g18 := Get_rd_word S base k (0 + 8 + 8 + 8 + 8 + 8 + 8 + 8 + 8 + 8 + 8 + 8 + 8 + 8 + 8 + 8 + 8 + 8 + 8) hk c17 hb
  by_cases c18 : 0 + 8 + 8 + 8 + 8 + 8 + 8 + 8 + 8 + 8 + 8 + 8 + 8 + 8 + 8 + 8 + 8 + 8 + 8 + 8 ≤ k
  swap
  · have hn : ¬ 168 ≤ k := by omega
    simp only [readHeader, g0, g1, g2, g3, g4, g5, g6, g7, g8, g9, g10, g11, g12, g13, g14, g15, g16, g17, g18, c0, c1, c2, c3, c4, c5, c6, c7, c8, c9, c10, c11, c12, c13, c14, c15, c16, c17, c18, hn, bind, Except.bind, if_true, if_false]
  have g19 := Get_rd_word S base k (0 + 8 + 8 + 8 + 8 + 8 + 8 + 8 + 8 + 8 + 8 + 8 + 8 + 8 + 8 + 8 + 8 + 8 + 8 + 8) hk c18 hb
  by_cases c19 : 0 + 8 + 8 + 8 + 8 + 8 + 8 + 8 + 8 + 8 + 8 + 8 + 8 + 8 + 8 + 8 + 8 + 8 + 8 + 8 + 8 ≤ k
  swap
  · have hn : ¬ 168 ≤ k := by omega
    simp only [readHeader, g0, g1, g2, g3, g4, g5, g6, g7, g8, g9, g10, g11, g12, g13, g14, g15, g16, g17, g18, g19, c0, c1, c2, c3, c4, c5, c6, c7, c8, c9, c10, c11, c12, c13, c14, c15, c16, c17, c18, c19, hn, bind, Except.bind, if_true, if_false]
  have g20 := Get_rd_word S base k (0 + 8 + 8 + 8 + 8 + 8 + 8 + 8 + 8 + 8 + 8 + 8 + 8 + 8 + 8 + 8 + 8 + 8 + 8 + 8 + 8) hk c19 hb
  by_cases c20 : 0 + 8 + 8 + 8 + 8 + 8 + 8 + 8 + 8 + 8 + 8 + 8 + 8 + 8 + 8 + 8 + 8 + 8 + 8 + 8 + 8 + 8 ≤ k
  swap
  · have hn : ¬ 168 ≤ k := by omega
    simp only [readHeader, g0, g1, g2, g3, g4, g5, g6, g7, g8, g9, g10, g11, g12, g13, g14, g15, g16, g17, g18, g19, g20, c0, c1, c2, c3, c4, c5, c6, c7, c8, c9, c10, c11, c12, c13, c14, c15, c16, c17, c18, c19, c20, hn, bind, Except.bind, if_true, if_false]
  have hy : 168 ≤ k := by omega
  simp only [readHeader, g0, g1, g2, g3, g4, g5, g6, g7, g8, g9, g10, g11, g12, g13, g14, g15, g16, g17, g18, g19, g20, c0, c1, c2, c3, c4, c5, c6, c7, c8, c9, c10, c11, c12, c13, c14, c15, c16, c17, c18, c19, c20, hy, bind, Except.bind, if_true, pure, Except.pure]
  rfl

/-! ## The phases of `_start` -/

theorem ctor_cases (env : Env) :
    (Reader.ctor env).2 = .error .fatal ∨
    (0 ≤ env.openInfo ∧ env.fstatRc = 0 ∧ env.mmapInfo ≠ MAP_FAILED ∧ env.closeInfo = 0 ∧
      Reader.ctor env =
        ([Event.sys_open (.lit "out_info") O_RDONLY 0 env.openInfo,
          Event.sys_fstat env.openInfo (env.info.length % two64) 0,
          Event.sys_mmap 0 (env.info.length % two64) PROT_READ MAP_PRIVATE env.openInfo 0
            env.mmapInfo,
          Event.sys_close env.openInfo 0],
         .ok { mapping_ := env.mmapInfo, pos_ := env.mmapInfo,
               end_ := (env.mmapInfo + env.info.length % two64) % two64,
               buf := env.info })) := by
  unfold Reader.ctor
  by_cases h1 : env.openInfo < 0
  · left; simp [h1]
  by_cases h2 : env.fstatRc = 0
  swap
  · left; simp [h1, h2]
  by_cases h3 : env.mmapInfo = MAP_FAILED
  · left; simp [h1, h2, h3]
  by_cases h4 : env.closeInfo = 0
  swap
  · left; simp [h1, h2, h3, h4]
  · right
    simp [h1, h2, h3, h4]
    omega

theorem ctor_rd (env : Env) (S : List Nat) (k : Nat) (hk : k ≤ S.length)
    (hinfo : env.info = S.take k) (hb : env.mmapInfo + S.length + 8 < two64) :
    (Reader.ctor env).2 = .error .fatal ∨
    (Reader.ctor env).2 = .ok (rd S env.mmapInfo k 0) := by
  rcases ctor_cases env with h | ⟨_, _, _, _, h⟩
  · left; exact h
  · right
    have hl : env.info.length = k := by rw [hinfo]; simp [hk]
    have h1 : k % two64 = k := Nat.mod_eq_of_lt (by omega)
    have h2 : (env.mmapInfo + k) % two64 = env.mmapInfo + k := Nat.mod_eq_of_lt (by omega)
    rw [h, hl, h1, h2]
    simp only [rd, hinfo, Nat.add_zero]

theorem finish_cases (env : Env) (fd : Int) (h : Header) (r : Reader) :
    (finish env fd h r).2 = .fatal ∨
    (env.munmapRc = 0 ∧ env.closePages = 0 ∧ env.prctlRc = 0 ∧ 0 ≤ env.tidRc ∧
      finish env fd h r =
        ([Event.sys_munmap r.mapping_ ((r.end_ + two64 - r.mapping_) % two64) 0,
          Event.sys_close fd 0,
          Event.sys_arch_prctl ARCH_SET_FS h.fs_segment_base 0,
          Event.sys_set_tid_address h.tid_address env.tidRc],
         .transferred (RestoreRegs env h.regs))) := by
  unfold finish Reader.Unmap
  by_cases h1 : env.munmapRc = 0
  swap
  · left; simp [h1]
  by_cases h2 : env.closePages = 0
  swap
  · left; simp [h1, h2]
  by_cases h3 : env.prctlRc = 0
  swap
  · left; simp [h1, h2, h3]
  by_cases h4 : env.tidRc < 0
  · left; simp [h1, h2, h3, h4]
  · right
    simp [h1, h2, h3, h4]
    omega

theorem finish_no_mmap (env : Env) (fd : Int) (h : Header) (r : Reader) :
    ∀ e ∈ (finish env fd h r).1, Event.mmapRequest e = none ∧ ¬ e.misplaced := by
  unfold finish Reader.Unmap
  by_cases h1 : env.munmapRc = 0 <;> by_cases h2 : env.closePages = 0 <;>
    by_cases h3 : env.prctlRc = 0 <;> by_cases h4 : env.tidRc < 0 <;>
    simp [h1, h2, h3, h4, Event.mmapRequest, Event.misplaced]

theorem start_ctor_error (env : Env) (h : (Reader.ctor env).2 = .error .fatal) :
    _start env = ((Reader.ctor env).1, .fatal) := by
  unfold _start
  cases hc : Reader.ctor env with
  | mk t0 res =>
    rw [hc] at h
    simp only at h
    subst h
    rfl

theorem start_pages_error (env : Env) (reader : Reader)
    (hc : (Reader.ctor env).2 = .ok reader) (hp : env.openPages < 0) :
    _start env = ((Reader.ctor env).1 ++
      [Event.sys_open (.lit "out_pages") O_RDONLY 0 env.openPages], .fatal) := by
  unfold _start
  cases hc2 : Reader.ctor env with
  | mk t0 res =>
    rw [hc2] at hc
    simp only at hc
    subst hc
    simp [hp]

theorem start_header_error (env : Env) (reader : Reader) (s : Stop)
    (hc : (Reader.ctor env).2 = .ok reader) (hp : ¬ env.openPages < 0)
    (hh : readHeader reader = .error s) :
    _start env = ((Reader.ctor env).1 ++
      [Event.sys_open (.lit "out_pages") O_RDONLY 0 env.openPages], s) := by
  unfold _start
  cases hc2 : Reader.ctor env with
  | mk t0 res =>
    rw [hc2] at hc
    simp only at hc
    subst hc
    simp [hp, hh]

theorem start_loop_error (env : Env) (reader r1 : Reader) (h : Header) (s : Stop)
    (hc : (Reader.ctor env).2 = .ok reader) (hp : ¬ env.openPages < 0)
    (hh : readHeader reader = .ok (h, r1))
    (hl : (mapLoop env env.openPages h.mapping_count.toNat 0 r1).2 = .error s) :
    _start env = ((Reader.ctor env).1 ++
      [Event.sys_open (.lit "out_pages") O_RDONLY 0 env.openPages] ++
      (mapLoop env env.openPages h.mapping_count.toNat 0 r1).1, s) := by
  unfold _start
  cases hc2 : Reader.ctor env with
  | mk t0 res =>
    rw [hc2] at hc
    simp only at hc
    subst hc
    cases hl2 : mapLoop env env.openPages h.mapping_count.toNat 0 r1 with
    | mk t2 res2 =>
      rw [hl2] at hl
      simp only at hl
      subst hl
      simp [hp, hh, hl2]

theorem start_loop_ok (env : Env) (reader r1 r2 : Reader) (h : Header)
    (hc : (Reader.ctor env).2 = .ok reader) (hp : ¬ env.openPages < 0)
    (hh : readHeader reader = .ok (h, r1))
    (hl : (mapLoop env env.openPages h.mapping_count.toNat 0 r1).2 = .ok r2) :
    _start env = ((Reader.ctor env).1 ++
      [Event.sys_open (.lit "out_pages") O_RDONLY 0 env.openPages] ++
      (mapLoop env env.openPages h.mapping_count.toNat 0 r1).1 ++
      (finish env env.openPages h r2).1, (finish env env.openPages h r2).2) := by
  unfold _start
  cases hc2 : Reader.ctor env with
  | mk t0 res =>
    rw [hc2] at hc
    simp only at hc
    subst hc
    cases hl2 : mapLoop env env.openPages h.mapping_count.toNat 0 r1 with
    | mk t2 res2 =>
      rw [hl2] at hl
      simp only at hl
      subst hl
      simp [hp, hh, hl2]

/-! ## Address fidelity -/

/-- C2. In every run, a `sys_mmap` call issued after the reader's constructor (that is,
a region mapping call, whatever the branch) that returns an address other than the one
requested is the last system call of the run, and the run ends with the fatal assertion
failure: no later region is installed, the metadata mapping is not unmapped, the thread
context is not installed and control is not transferred. -/
theorem misplaced_mapping_is_fatal (env : Env) (pre post : List Event) (e : Event)
    (h : (_start env).1 = (Reader.ctor env).1 ++ pre ++ e :: post) (he : e.misplaced) :
    post = [] ∧ (_start env).2 = .fatal := by
  have key : ∀ (t0 : List Event) (x : Event) (t2 : List Event),
      t0 ++ [x] ++ t2 = t0 ++ pre ++ e :: post → ¬ x.misplaced →
        ∃ p, t2 = p ++ e :: post := by
    intro t0 x t2 hx hnx
    rw [List.append_assoc, List.append_assoc] at hx
    have hx2 := List.append_cancel_left hx
    rcases pre with _ | ⟨p0, p⟩
    · simp only [List.nil_append, List.singleton_append, List.cons.injEq] at hx2
      exact absurd (hx2.1 ▸ he) hnx
    · simp only [List.singleton_append, List.cons_append, List.cons.injEq] at hx2
      exact ⟨p, hx2.2⟩
  have hopen : ¬ (Event.sys_open (.lit "out_pages") O_RDONLY 0 env.openPages).misplaced := by
    simp [Event.misplaced]
  rcases ctor_cases env with hc | ⟨_, _, _, _, hc⟩
  · rw [start_ctor_error env hc] at h ⊢
    simp only at h
    have := congrArg List.length h
    simp at this
  · obtain ⟨reader, hc2⟩ : ∃ reader, (Reader.ctor env).2 = .ok reader := ⟨_, by rw [hc]⟩
    by_cases hp : env.openPages < 0
    · rw [start_pages_error env _ hc2 hp] at h ⊢
      simp only at h
      obtain ⟨p, hp2⟩ := key (Reader.ctor env).1
          (Event.sys_open (.lit "out_pages") O_RDONLY 0 env.openPages) []
          (by rw [List.append_nil]; exact h) hopen
      simp at hp2
    · cases hh : readHeader _ with
      | error s =>
        rw [start_header_error env _ s hc2 hp hh] at h ⊢
        simp only at h
        obtain ⟨p, hp2⟩ := key (Reader.ctor env).1
          (Event.sys_open (.lit "out_pages") O_RDONLY 0 env.openPages) []
          (by rw [List.append_nil]; exact h) hopen
        simp at hp2
      | ok v =>
        obtain ⟨hd, r1⟩ := v
        cases hl : (mapLoop env env.openPages hd.mapping_count.toNat 0 r1).2 with
        | error s =>
          rw [start_loop_error env _ r1 hd s hc2 hp hh hl] at h ⊢
          simp only at h
          obtain ⟨p, hp2⟩ := key _ _ _ h hopen
          have := mapLoop_misplaced_last env env.openPages _ 0 r1 p post e hp2 he
          rw [hl] at this
          simp only [Except.error.injEq] at this
          exact ⟨this.1, this.2⟩
        | ok r2 =>
          rw [start_loop_ok env _ r1 r2 hd hc2 hp hh hl] at h ⊢
          simp only at h
          exfalso
          rw [List.append_assoc _ _ (finish env env.openPages hd r2).1] at h
          obtain ⟨p, hp2⟩ := key _ _ _ h hopen
          have hmem : e ∈ (mapLoop env env.openPages hd.mapping_count.toNat 0 r1).1 ++
              (finish env env.openPages hd r2).1 := by
            rw [hp2]; simp
          rcases List.mem_append.mp hmem with h3 | h3
          · have hok := mapLoop_ok env env.openPages hd.mapping_count.toNat 0 r1 r2
              (mapLoop env env.openPages hd.mapping_count.toNat 0 r1).1
              (by rw [← hl])
            exact hok.2.2 e h3 he
          · exact (finish_no_mmap env env.openPages hd r2 e h3).2 he

set_option maxRecDepth 100000 in
theorem misplaced_mapping_is_fatal_witness :
    ([] : List Event) = [] ∧ (_start envSecondMisplaced).2 = .fatal :=
  misplaced_mapping_is_fatal envSecondMisplaced
    [Event.sys_open (.lit "out_pages") O_RDONLY 0 4,
     Event.sys_open (.ptr 4296) O_RDONLY 0 5,
     Event.sys_mmap 8192 4096 1 2 5 4096 8192,
     Event.sys_close 5 0]
    []
    (Event.sys_mmap 8192 4096 3 2 4 12288 12288)
    (by decide) (by decide)

/-! ## Words of an encoded snapshot -/

theorem encodeWords_length (ws : List Nat) : (encodeWords ws).length = 8 * ws.length := by
  induction ws with
  | nil => rfl
  | cons w ws ih => simp [encodeWords, encodeWord_length, ih]; omega

theorem wordAt_encodeWords (rest : List Nat) :
    ∀ (ws : List Nat) (i : Nat), i < ws.length → (∀ w ∈ ws, w < two64) →
      wordAt (encodeWords ws ++ rest) i = ws.getD i 0 := by
  intro ws
  induction ws with
  | nil => intro i hi; simp at hi
  | cons w ws ih =>
    intro i hi hw
    cases i with
    | zero =>
      have h1 : ((encodeWords (w :: ws) ++ rest).drop (8 * 0)).take 8 = encodeWord w := by
        simp only [encodeWords, Nat.mul_zero, List.drop_zero, List.append_assoc]
        rw [List.take_append_of_le_length (by simp [encodeWord_length])]
        rw [List.take_of_length_le (by simp [encodeWord_length])]
      unfold wordAt
      rw [h1, le64_encodeWord w (hw w (by simp))]
      simp
    | succ i =>
      have h1 : (encodeWords (w :: ws) ++ rest).drop (8 * (i + 1)) =
          (encodeWords ws ++ rest).drop (8 * i) := by
        simp only [encodeWords, List.append_assoc]
        have : 8 * (i + 1) = (encodeWord w).length + 8 * i := by
          rw [encodeWord_length]; omega
        rw [this, List.drop_append]
      have := ih i (by simpa using hi) (fun x hx => hw x (by simp [hx]))
      simp only [wordAt] at this ⊢
      rw [h1, this]
      simp

theorem toInt32_small (n : Nat) (h : n < 2 ^ 31) : (toInt32 n).toNat = n := by
  unfold toInt32
  have h1 : n % 2 ^ 32 = n := Nat.mod_eq_of_lt (by omega)
  rw [h1, if_pos h]
  simp

theorem headerWords_length (s : Snapshot) (h : s.regs.length = 18) :
    s.headerWords.length = 21 := by
  simp [Snapshot.headerWords, h]

theorem encodeSnapshot_length (s : Snapshot) (h : s.regs.length = 18) :
    (encodeSnapshot s).length = 168 + (encodeDescs s.regions).length := by
  simp [encodeSnapshot, encodeWords_length, headerWords_length s h]

theorem encodeSnapshot_drop (s : Snapshot) (h : s.regs.length = 18) :
    (encodeSnapshot s).drop 168 = encodeDescs s.regions ++ [] := by
  have : 168 = (encodeWords s.headerWords).length := by
    rw [encodeWords_length, headerWords_length s h]
  rw [this, encodeSnapshot, List.drop_left, List.append_nil]

theorem headerWords_lt (s : Snapshot) (hv : s.Valid) : ∀ w ∈ s.headerWords, w < two64 := by
  obtain ⟨_, h2, h3, h4, h5, _⟩ := hv
  intro w hw
  simp only [Snapshot.headerWords, List.mem_append, List.mem_cons, List.mem_singleton,
    List.not_mem_nil, or_false] at hw
  rcases hw with hw | hw | hw | hw
  · exact h2 w hw
  · rw [hw]; exact h3
  · rw [hw]; exact h4
  · rw [hw]; unfold two64; omega

theorem wordAt_count (s : Snapshot) (hv : s.Valid) :
    wordAt (encodeSnapshot s) 20 = s.regions.length := by
  have hl := headerWords_length s hv.1
  rw [encodeSnapshot, wordAt_encodeWords _ _ 20 (by omega) (headerWords_lt s hv)]
  simp only [Snapshot.headerWords]
  have h18 := hv.1
  rw [List.getD_eq_getElem?_getD, List.getElem?_append_right (by omega)]
  simp [h18]

theorem ctor_ok (env : Env) (h1 : 0 ≤ env.openInfo) (h2 : env.fstatRc = 0)
    (h3 : env.mmapInfo ≠ MAP_FAILED) (h4 : env.closeInfo = 0) :
    Reader.ctor env =
      ([Event.sys_open (.lit "out_info") O_RDONLY 0 env.openInfo,
        Event.sys_fstat env.openInfo (env.info.length % two64) 0,
        Event.sys_mmap 0 (env.info.length % two64) PROT_READ MAP_PRIVATE env.openInfo 0
          env.mmapInfo,
        Event.sys_close env.openInfo 0],
       .ok { mapping_ := env.mmapInfo, pos_ := env.mmapInfo,
             end_ := (env.mmapInfo + env.info.length % two64) % two64,
             buf := env.info }) := by
  unfold Reader.ctor
  have : ¬ env.openInfo < 0 := by omega
  simp [this, h2, h3, h4]

theorem readHeader_count (S : List Nat) (base k : Nat) (hk : k ≤ S.length)
    (hb : base + S.length + 8 < two64) (h168 : 168 ≤ k) :
    ∃ hd, readHeader (rd S base k 0) = .ok (hd, rd S base k 168) ∧
      hd.mapping_count = toInt32 (wordAt S 20) ∧
      hd.fs_segment_base = wordAt S 18 ∧ hd.tid_address = wordAt S 19 := by
  have h := readHeader_rd S base k hk hb
  rw [if_pos h168] at h
  exact ⟨_, h, rfl, rfl, rfl⟩

/-! ## Region count and install count -/

/-- C7. For every well-formed snapshot with `n` region descriptors (its stream declares
the count `n`, followed by exactly those descriptors), run in an environment where the
constructor's calls and `sys_open("out_pages")` succeed, every region mapping call
returns the requested address and every reopen and close succeeds: the `sys_mmap` calls
of the whole run are the mapping of the metadata file followed by exactly one call per
descriptor, in stream order, the `i`-th carrying the start, size and protection of the
`i`-th descriptor with the flags and offset of its branch.  So exactly `n` installs are
issued, none skipped, repeated or reordered; this covers `n = 0`, `n = 1` and larger
`n`. -/
theorem install_count (s : Snapshot) (env : Env) (hv : s.Valid)
    (hinfo : env.info = encodeSnapshot s)
    (hb : env.mmapInfo + env.info.length + 8 < two64)
    (h1 : 0 ≤ env.openInfo) (h2 : env.fstatRc = 0) (h3 : env.closeInfo = 0)
    (h4 : 0 ≤ env.openPages)
    (hm : ∀ i d, s.regions[i]? = some d → env.mmapRet i = d.start)
    (ho : ∀ i, 0 ≤ env.openRet i) (hc : ∀ i, env.closeRet i = 0) :
    (_start env).1.filterMap Event.mmapRequest =
        (0, env.info.length, PROT_READ, MAP_PRIVATE, 0) :: s.regions.map Descriptor.request ∧
    ((_start env).1.filterMap Event.mmapRequest).length = 1 + s.regions.length ∧
    wordAt env.info 20 = s.regions.length := by
  have hmf : env.mmapInfo ≠ MAP_FAILED := by
    unfold MAP_FAILED; unfold two64 at hb; omega
  have hcok := ctor_ok env h1 h2 hmf h3
  have hlen : env.info.length % two64 = env.info.length := Nat.mod_eq_of_lt (by omega)
  rw [hlen] at hcok
  have hS : (encodeSnapshot s).length = env.info.length := by rw [hinfo]
  have hb2 : env.mmapInfo + (encodeSnapshot s).length + 8 < two64 := by rw [hS]; exact hb
  have hrd : (Reader.ctor env).2 = .ok (rd (encodeSnapshot s) env.mmapInfo
      (encodeSnapshot s).length 0) := by
    rcases ctor_rd env (encodeSnapshot s) (encodeSnapshot s).length (le_refl _)
      (by rw [hinfo]; simp) hb2 with h | h
    · rw [hcok] at h; simp at h
    · exact h
  have hL := encodeSnapshot_length s hv.1
  obtain ⟨hd, hh, hcount, _, _⟩ := readHeader_count (encodeSnapshot s) env.mmapInfo
    (encodeSnapshot s).length (le_refl _) hb2 (by omega)
  have hn : hd.mapping_count.toNat = s.regions.length := by
    rw [hcount, wordAt_count s hv, toInt32_small _ hv.2.2.2.2.1]
  have hloop := mapLoop_rd_ok env env.openPages (encodeSnapshot s) env.mmapInfo hb2 ho hc
    s.regions 0 168 [] (encodeSnapshot_drop s hv.1) hv.2.2.2.2.2 (by omega)
    (fun j d hj => by rw [Nat.zero_add]; exact hm j d hj)
  rw [← hn] at hloop
  have hst := start_loop_ok env _ _ _ hd hrd (by omega) hh hloop.1
  have hfin : (finish env env.openPages hd (rd (encodeSnapshot s) env.mmapInfo
      (encodeSnapshot s).length (168 + (encodeDescs s.regions).length))).1.filterMap
        Event.mmapRequest = [] := by
    rw [List.filterMap_eq_nil_iff]
    intro e he
    exact (finish_no_mmap _ _ _ _ e he).1
  have hmain : (_start env).1.filterMap Event.mmapRequest =
      (0, env.info.length, PROT_READ, MAP_PRIVATE, 0) :: s.regions.map Descriptor.request := by
    rw [hst]
    simp only [List.filterMap_append, hloop.2, hfin, hcok, List.append_nil]
    simp [Event.mmapRequest]
  refine ⟨hmain, ?_, ?_⟩
  · rw [hmain]; simp; omega
  · rw [hinfo]; exact wordAt_count s hv

set_option maxRecDepth 100000 in
theorem install_count_witness :
    sampleSnapshot.Valid ∧
    ((_start (envAt8192 (encodeSnapshot sampleSnapshot))).1.filterMap Event.mmapRequest =
        (0, (envAt8192 (encodeSnapshot sampleSnapshot)).info.length, PROT_READ, MAP_PRIVATE, 0) ::
          sampleSnapshot.regions.map Descriptor.request ∧
      ((_start (envAt8192 (encodeSnapshot sampleSnapshot))).1.filterMap
        Event.mmapRequest).length = 1 + sampleSnapshot.regions.length ∧
      wordAt (envAt8192 (encodeSnapshot sampleSnapshot)).info 20 =
        sampleSnapshot.regions.length) :=
  have hv : sampleSnapshot.Valid := by
    refine ⟨rfl, by decide, by decide, by decide, by decide, by decide⟩
  ⟨hv, install_count sampleSnapshot (envAt8192 (encodeSnapshot sampleSnapshot)) hv rfl
    (by decide) (by decide) rfl rfl (by decide)
    (by
      intro i d h
      have : d.start = 8192 := by
        have hmem := List.getElem?_mem h
        simp only [sampleSnapshot, List.mem_cons, List.mem_singleton, List.not_mem_nil,
          or_false] at hmem
        rcases hmem with h | h | h <;> rw [h] <;> rfl
      rw [this]; rfl)
    (fun _ => by show (0 : Int) ≤ 5; decide) (fun _ => rfl)⟩

/-! ## Bounded consumption -/

/-- C6. Let the metadata file hold the first `k` bytes of the stream of a well-formed
snapshot (the whole stream when `k` is at least its length), and let the place where the
kernel maps it leave room for the whole stream below the last eight bytes of the address
space.  Then, whatever the system calls answer, the run never loads a byte outside the
mapped file; and if the file is a strict prefix of the stream (`k` smaller than its
length, `k = 0` included) the run ends with the fatal assertion failure, so before any
control transfer. -/
theorem bounded_consumption (s : Snapshot) (env : Env) (k : Nat) (hv : s.Valid)
    (hinfo : env.info = (encodeSnapshot s).take k)
    (hb : env.mmapInfo ≠ MAP_FAILED → env.mmapInfo + (encodeSnapshot s).length + 8 < two64) :
    (_start env).2 ≠ .outOfBounds ∧
    (k < (encodeSnapshot s).length → (_start env).2 = .fatal) := by
  obtain ⟨k1, hk1, hinfo1, hstrict⟩ : ∃ k1, k1 ≤ (encodeSnapshot s).length ∧
      env.info = (encodeSnapshot s).take k1 ∧
      (k < (encodeSnapshot s).length → k1 < (encodeSnapshot s).length) := by
    by_cases hk : k ≤ (encodeSnapshot s).length
    · exact ⟨k, hk, hinfo, fun h => h⟩
    · refine ⟨(encodeSnapshot s).length, le_refl _, ?_, fun h => absurd h (by omega)⟩
      rw [hinfo, List.take_of_length_le (by omega), List.take_length]
  have fatal_case : (_start env).2 = .fatal →
      (_start env).2 ≠ .outOfBounds ∧
      (k < (encodeSnapshot s).length → (_start env).2 = .fatal) := by
    intro h
    rw [h]
    exact ⟨by simp, fun _ => rfl⟩
  rcases ctor_cases env with hc | ⟨_, _, hmf, _, _⟩
  · apply fatal_case
    rw [start_ctor_error env hc]
  have hb2 := hb hmf
  rcases ctor_rd env (encodeSnapshot s) k1 hk1 hinfo1 hb2 with hc | hc
  · apply fatal_case
    rw [start_ctor_error env hc]
  by_cases hp : env.openPages < 0
  · apply fatal_case
    rw [start_pages_error env _ hc hp]
  have hL := encodeSnapshot_length s hv.1
  by_cases h168 : 168 ≤ k1
  swap
  · apply fatal_case
    have hh := readHeader_rd (encodeSnapshot s) env.mmapInfo k1 hk1 hb2
    rw [if_neg h168] at hh
    rw [start_header_error env _ _ hc hp hh]
  obtain ⟨hd, hh, hcount, _, _⟩ := readHeader_count (encodeSnapshot s) env.mmapInfo k1 hk1 hb2
    h168
  have hn : hd.mapping_count.toNat = s.regions.length := by
    rw [hcount, wordAt_count s hv, toInt32_small _ hv.2.2.2.2.1]
  have hloop := mapLoop_rd_cases env env.openPages (encodeSnapshot s) env.mmapInfo k1 hk1 hb2
    s.regions 0 168 [] (encodeSnapshot_drop s hv.1) hv.2.2.2.2.2 h168
  rw [← hn] at hloop
  rcases hloop with hl | ⟨hfit, hl⟩
  · apply fatal_case
    rw [start_loop_error env _ _ hd _ hc hp hh hl]
  · rw [start_loop_ok env _ _ _ hd hc hp hh hl]
    simp only
    refine ⟨?_, fun hlt => absurd (hstrict hlt) (by omega)⟩
    rcases finish_cases env env.openPages hd
      (rd (encodeSnapshot s) env.mmapInfo k1 (168 + (encodeDescs s.regions).length)) with hf | hf
    · rw [hf]; simp
    · rw [hf.2.2.2.2]; simp

set_option maxRecDepth 100000 in
theorem bounded_consumption_witness :
    sampleSnapshot.Valid ∧ 200 < (encodeSnapshot sampleSnapshot).length ∧
    (_start envTruncated).2 ≠ .outOfBounds ∧
    (200 < (encodeSnapshot sampleSnapshot).length → (_start envTruncated).2 = .fatal) :=
  have hv : sampleSnapshot.Valid := by
    refine ⟨rfl, by decide, by decide, by decide, by decide, by decide⟩
  ⟨hv, by decide, bounded_consumption sampleSnapshot envTruncated 200 hv rfl
    (fun _ => by decide)⟩

/-! ## The reader never changes its mapping -/

theorem bind_ok {α β : Type} (x : Res α) (f : α → Res β) (b : β)
    (h : (x >>= f) = .ok b) : ∃ a, x = .ok a ∧ f a = .ok b := by
  cases x with
  | error e => simp [bind, Except.bind] at h
  | ok a => exact ⟨a, rfl, h⟩

theorem sameMap_refl (r : Reader) : r.sameMap r := ⟨rfl, rfl, rfl⟩

theorem sameMap_trans {r r1 r2 : Reader} (h1 : r.sameMap r1) (h2 : r1.sameMap r2) :
    r.sameMap r2 :=
  ⟨h2.1.trans h1.1, h2.2.1.trans h1.2.1, h2.2.2.trans h1.2.2⟩

theorem Get_same (r r1 : Reader) (v : Nat) (h : r.Get = .ok (v, r1)) : r.sameMap r1 := by
  unfold Reader.Get at h
  split_ifs at h
  split at h
  · simp at h
  · simp only [Except.ok.injEq, Prod.mk.injEq] at h
    rw [← h.2]
    exact ⟨rfl, rfl, rfl⟩

theorem GetString_same (r r1 : Reader) (v : Nat) (h : r.GetString = .ok (v, r1)) :
    r.sameMap r1 := by
  unfold Reader.GetString at h
  split at h
  · simp at h
  · rename_i len r0 hg
    have h0 := Get_same r r0 len hg
    simp only at h
    split_ifs at h
    simp only [Except.ok.injEq, Prod.mk.injEq] at h
    rw [← h.2]
    exact ⟨h0.1, h0.2.1, h0.2.2⟩

theorem readRegion_same (r r1 : Reader) (m : Region) (h : readRegion r = .ok (m, r1)) :
    r.sameMap r1 := by
  unfold readRegion at h
  obtain ⟨⟨v1, q1⟩, g1, h⟩ := bind_ok _ _ _ h
  simp only at h
  obtain ⟨⟨v2, q2⟩, g2, h⟩ := bind_ok _ _ _ h
  simp only at h
  obtain ⟨⟨v3, q3⟩, g3, h⟩ := bind_ok _ _ _ h
  simp only at h
  obtain ⟨⟨v4, q4⟩, g4, h⟩ := bind_ok _ _ _ h
  simp only at h
  obtain ⟨⟨v5, q5⟩, g5, h⟩ := bind_ok _ _ _ h
  simp only at h
  obtain ⟨⟨v6, q6⟩, g6, h⟩ := bind_ok _ _ _ h
  simp only at h
  have s6 : r.sameMap q6 :=
    sameMap_trans (sameMap_trans (sameMap_trans (sameMap_trans (sameMap_trans
      (Get_same _ _ _ g1) (Get_same _ _ _ g2)) (Get_same _ _ _ g3))
      (GetString_same _ _ _ g4)) (Get_same _ _ _ g5)) (Get_same _ _ _ g6)
  split_ifs at h
  · obtain ⟨⟨v7, q7⟩, g7, h⟩ := bind_ok _ _ _ h
    simp only [pure, Except.pure, Except.ok.injEq, Prod.mk.injEq] at h
    rw [← h.2]
    exact sameMap_trans s6 (Get_same _ _ _ g7)
  · split at h
    · simp at h
    · split_ifs at h <;>
        simp only [pure, Except.pure, Except.ok.injEq, Prod.mk.injEq] at h <;>
        rw [← h.2] <;> exact s6

theorem mapLoop_same (env : Env) (fd : Int) :
    ∀ (n i : Nat) (r r1 : Reader), (mapLoop env fd n i r).2 = .ok r1 → r.sameMap r1 := by
  intro n
  induction n with
  | zero =>
    intro i r r1 h
    simp only [mapLoop, Except.ok.injEq] at h
    rw [← h]
    exact sameMap_refl r
  | succ n ih =>
    intro i r r1 h
    rw [mapLoop_succ] at h
    cases hr : readRegion r with
    | error e => simp [hr] at h
    | ok v =>
      obtain ⟨m, r2⟩ := v
      simp only [hr] at h
      cases hI : installRegion env fd i m with
      | mk evs b =>
        cases b with
        | false => simp [hI] at h
        | true =>
          simp only [hI] at h
          exact sameMap_trans (readRegion_same r r2 m hr) (ih (i + 1) r2 r1 h)

/-! ## Reads never transfer control -/

theorem bind_error {α β : Type} (x : Res α) (f : α → Res β) (e : Stop)
    (h : (x >>= f) = .error e) : x = .error e ∨ ∃ a, x = .ok a ∧ f a = .error e := by
  cases x with
  | error e1 =>
    left
    simpa [bind, Except.bind] using h
  | ok a => exact Or.inr ⟨a, rfl, h⟩

theorem Get_error (r : Reader) (e : Stop) (h : r.Get = .error e) :
    e = .fatal ∨ e = .outOfBounds := by
  unfold Reader.Get at h
  split_ifs at h
  · split at h
    · simp only [Except.error.injEq] at h
      exact Or.inr h.symm
    · simp at h
  · simp only [Except.error.injEq] at h
    exact Or.inl h.symm

theorem GetString_error (r : Reader) (e : Stop) (h : r.GetString = .error e) :
    e = .fatal ∨ e = .outOfBounds := by
  unfold Reader.GetString at h
  split at h
  · rename_i e1 hg
    simp only [Except.error.injEq] at h
    rw [← h]
    exact Get_error r e1 hg
  · simp only at h
    split_ifs at h
    simp only [Except.error.injEq] at h
    exact Or.inl h.symm

theorem readRegion_error (r : Reader) (e : Stop) (h : readRegion r = .error e) :
    e = .fatal ∨ e = .outOfBounds := by
  unfold readRegion at h
  rcases bind_error _ _ _ h with g | ⟨⟨v1, q1⟩, _, h⟩
  · exact Get_error _ _ g
  simp only at h
  rcases bind_error _ _ _ h with g | ⟨⟨v2, q2⟩, _, h⟩
  · exact Get_error _ _ g
  simp only at h
  rcases bind_error _ _ _ h with g | ⟨⟨v3, q3⟩, _, h⟩
  · exact Get_error _ _ g
  simp only at h
  rcases bind_error _ _ _ h with g | ⟨⟨v4, q4⟩, _, h⟩
  · exact GetString_error _ _ g
  simp only at h
  rcases bind_error _ _ _ h with g | ⟨⟨v5, q5⟩, _, h⟩
  · exact Get_error _ _ g
  simp only at h
  rcases bind_error _ _ _ h with g | ⟨⟨v6, q6⟩, _, h⟩
  · exact Get_error _ _ g
  simp only at h
  split_ifs at h
  · rcases bind_error _ _ _ h with g | ⟨⟨v7, q7⟩, _, h⟩
    · exact Get_error _ _ g
    · simp [pure, Except.pure] at h
  · split at h
    · simp only [Except.error.injEq] at h
      exact Or.inr h.symm
    · split_ifs at h <;> simp [pure, Except.pure] at h

theorem mapLoop_error (env : Env) (fd : Int) :
    ∀ (n i : Nat) (r : Reader) (e : Stop), (mapLoop env fd n i r).2 = .error e →
      e = .fatal ∨ e = .outOfBounds := by
  intro n
  induction n with
  | zero =>
    intro i r e h
    simp [mapLoop] at h
  | succ n ih =>
    intro i r e h
    rw [mapLoop_succ] at h
    cases hr : readRegion r with
    | error e1 =>
      simp only [hr, Except.error.injEq] at h
      rw [← h]
      exact readRegion_error r e1 hr
    | ok v =>
      obtain ⟨m, r2⟩ := v
      simp only [hr] at h
      cases hI : installRegion env fd i m with
      | mk evs b =>
        cases b with
        | false =>
          simp only [hI, Except.error.injEq] at h
          exact Or.inl h.symm
        | true =>
          simp only [hI] at h
          exact ih (i + 1) r2 e h

/-! ## Runs that reach the control transfer -/

theorem start_transferred (env : Env) (tr : List Event) (hw : HwState)
    (hb : env.mmapInfo + env.info.length + 8 < two64)
    (h : _start env = (tr, .transferred hw)) :
    168 ≤ env.info.length ∧ ∃ hd t2 r2,
      readHeader (rd env.info env.mmapInfo env.info.length 0) =
        .ok (hd, rd env.info env.mmapInfo env.info.length 168) ∧
      mapLoop env env.openPages hd.mapping_count.toNat 0
        (rd env.info env.mmapInfo env.info.length 168) = (t2, .ok r2) ∧
      tr = [Event.sys_open (.lit "out_info") O_RDONLY 0 env.openInfo,
            Event.sys_fstat env.openInfo env.info.length 0,
            Event.sys_mmap 0 env.info.length PROT_READ MAP_PRIVATE env.openInfo 0 env.mmapInfo,
            Event.sys_close env.openInfo 0,
            Event.sys_open (.lit "out_pages") O_RDONLY 0 env.openPages] ++ t2 ++
           [Event.sys_munmap env.mmapInfo env.info.length 0,
            Event.sys_close env.openPages 0,
            Event.sys_arch_prctl ARCH_SET_FS hd.fs_segment_base 0,
            Event.sys_set_tid_address hd.tid_address env.tidRc] ∧
      hw = RestoreRegs env hd.regs := by
  have hlen : env.info.length % two64 = env.info.length := Nat.mod_eq_of_lt (by omega)
  rcases ctor_cases env with hc | ⟨_, _, _, _, hcok⟩
  · rw [start_ctor_error env hc] at h
    simp at h
  rw [hlen] at hcok
  have hrd : (Reader.ctor env).2 = .ok (rd env.info env.mmapInfo env.info.length 0) := by
    rcases ctor_rd env env.info env.info.length (le_refl _) (by simp) hb with h1 | h1
    · rw [hcok] at h1; simp at h1
    · exact h1
  by_cases hp : env.openPages < 0
  · rw [start_pages_error env _ hrd hp] at h
    simp at h
  by_cases h168 : 168 ≤ env.info.length
  swap
  · have hh := readHeader_rd env.info env.mmapInfo env.info.length (le_refl _) hb
    rw [if_neg h168] at hh
    rw [start_header_error env _ _ hrd hp hh] at h
    simp at h
  obtain ⟨hd, hh, _, _, _⟩ := readHeader_count env.info env.mmapInfo env.info.length
    (le_refl _) hb h168
  refine ⟨h168, hd, ?_⟩
  cases hl : mapLoop env env.openPages hd.mapping_count.toNat 0
      (rd env.info env.mmapInfo env.info.length 168) with
  | mk t2 res =>
    cases res with
    | error s =>
      have hl2 : (mapLoop env env.openPages hd.mapping_count.toNat 0
          (rd env.info env.mmapInfo env.info.length 168)).2 = .error s := by rw [hl]
      have hs := mapLoop_error env env.openPages _ 0 _ s hl2
      rw [start_loop_error env _ _ _ s hrd hp hh hl2] at h
      simp only [Prod.mk.injEq] at h
      rcases hs with hs | hs <;> rw [hs] at h <;> simp at h
    | ok r2 =>
      have hl2 : (mapLoop env env.openPages hd.mapping_count.toNat 0
          (rd env.info env.mmapInfo env.info.length 168)).2 = .ok r2 := by rw [hl]
      have hsame := mapLoop_same env env.openPages _ 0 _ r2 hl2
      simp only [Reader.sameMap, rd] at hsame
      rw [start_loop_ok env _ _ r2 _ hrd hp hh hl2] at h
      rcases finish_cases env env.openPages hd r2 with hf | ⟨_, _, _, _, hf⟩
      · rw [hf] at h
        simp at h
      · rw [hf, hl, hcok] at h
        simp only [Prod.mk.injEq, Stop.transferred.injEq] at h
        have hun : (r2.end_ + two64 - r2.mapping_) % two64 = env.info.length := by
          rw [hsame.1, hsame.2.1]
          rw [show env.mmapInfo + env.info.length + two64 - env.mmapInfo =
            env.info.length + two64 by omega]
          rw [Nat.add_mod_right]
          exact hlen
        refine ⟨t2, r2, hh, rfl, ?_, h.2.symm⟩
        rw [← h.1, hun, hsame.1]
        simp

/-! ## Register round trip -/

theorem and_or_and_left (a b m c : Nat) (h : m &&& c = 0) :
    (a &&& m ||| b &&& c) &&& m = a &&& m := by
  apply Nat.eq_of_testBit_eq
  intro i
  have hi := congrArg (fun x => x.testBit i) h
  simp only [Nat.testBit_and, Nat.zero_testBit] at hi
  simp only [Nat.testBit_and, Nat.testBit_or]
  cases a.testBit i <;> cases b.testBit i <;> cases hm : m.testBit i <;>
    cases hc : c.testBit i <;> simp_all

theorem and_or_and_right (a b m c : Nat) (h : m &&& c = 0) :
    (a &&& m ||| b &&& c) &&& c = b &&& c := by
  apply Nat.eq_of_testBit_eq
  intro i
  have hi := congrArg (fun x => x.testBit i) h
  simp only [Nat.testBit_and, Nat.zero_testBit] at hi
  simp only [Nat.testBit_and, Nat.testBit_or]
  cases a.testBit i <;> cases b.testBit i <;> cases hm : m.testBit i <;>
    cases hc : c.testBit i <;> simp_all

theorem iretqWritable_user (cpl live : Nat) (h3 : cpl = 3) (hio : live / 4096 % 4 < 3) :
    iretqWritable cpl live = 0x254DD5 := by
  unfold iretqWritable iretqAlways
  have h1 : ¬ cpl ≤ live / 4096 % 4 := by omega
  have h2 : ¬ cpl = 0 := by omega
  simp [h1, h2]

/-- C8, as the code and the processor have it.  In every run that reaches `iretq`, the
register state it loads is: rax, rcx, rdx, rbx, rsp, rbp, rsi, rdi the words 0 to 7 of
the metadata stream, r8 to r15 the words 8 to 15, rip the word 16; the code and stack
segment selectors are the live values read from the processor, not words of the file.
Of the flags word 17 only the bits that `iretq` may write at the current privilege
level are loaded, every other bit of RFLAGS keeps its live value: in user mode
(privilege level 3, IOPL below 3) the bits CF, PF, AF, ZF, SF, TF, DF, OF, NT, RF, AC
and ID come from the word 17, and all other bits, among them IF, IOPL, VIF, VIP and
the fixed bits, stay as they were. -/
theorem register_round_trip (env : Env) (tr : List Event) (hw : HwState)
    (hb : env.mmapInfo + env.info.length + 8 < two64)
    (h : _start env = (tr, .transferred hw)) :
    hw.rax = wordAt env.info 0 ∧ hw.rcx = wordAt env.info 1 ∧ hw.rdx = wordAt env.info 2 ∧
    hw.rbx = wordAt env.info 3 ∧ hw.rsp = wordAt env.info 4 ∧ hw.rbp = wordAt env.info 5 ∧
    hw.rsi = wordAt env.info 6 ∧ hw.rdi = wordAt env.info 7 ∧ hw.r8 = wordAt env.info 8 ∧
    hw.r9 = wordAt env.info 9 ∧ hw.r10 = wordAt env.info 10 ∧ hw.r11 = wordAt env.info 11 ∧
    hw.r12 = wordAt env.info 12 ∧ hw.r13 = wordAt env.info 13 ∧ hw.r14 = wordAt env.info 14 ∧
    hw.r15 = wordAt env.info 15 ∧ hw.rip = wordAt env.info 16 ∧
    hw.rflags =
      (wordAt env.info 17 &&& iretqWritable (env.cs % 4) env.rflags) |||
        (env.rflags &&& ((two64 - 1) ^^^ iretqWritable (env.cs % 4) env.rflags)) ∧
    (env.cs % 4 = 3 → env.rflags / 4096 % 4 < 3 →
      hw.rflags &&& 0x254DD5 = wordAt env.info 17 &&& 0x254DD5 ∧
      hw.rflags &&& 0xFFFFFFFFFFDAB22A = env.rflags &&& 0xFFFFFFFFFFDAB22A) ∧
    hw.cs = env.cs ∧ hw.ss = env.ss := by
  obtain ⟨h168, hd, t2, r2, hh, _, _, hhw⟩ := start_transferred env tr hw hb h
  have hx := readHeader_rd env.info env.mmapInfo env.info.length (le_refl _) hb
  rw [if_pos h168, hh] at hx
  simp only [Except.ok.injEq, Prod.mk.injEq, and_true] at hx
  subst hx
  subst hhw
  have hfl : (RestoreRegs env
      { rax := wordAt env.info 0, rcx := wordAt env.info 1, rdx := wordAt env.info 2,
        rbx := wordAt env.info 3, rbp := wordAt env.info 5, rsi := wordAt env.info 6,
        rdi := wordAt env.info 7, r8 := wordAt env.info 8, r9 := wordAt env.info 9,
        r10 := wordAt env.info 10, r11 := wordAt env.info 11, r12 := wordAt env.info 12,
        r13 := wordAt env.info 13, r14 := wordAt env.info 14, r15 := wordAt env.info 15,
        rip := wordAt env.info 16, cs := 0, flags := wordAt env.info 17,
        rsp := wordAt env.info 4, ss := 0 }).rflags =
      (wordAt env.info 17 &&& iretqWritable (env.cs % 4) env.rflags) |||
        (env.rflags &&& ((two64 - 1) ^^^ iretqWritable (env.cs % 4) env.rflags)) := by
    simp [RestoreRegs, popq, RegsToRestore.image, iretqFlags]
  refine ⟨?_, ?_, ?_, ?_, ?_, ?_, ?_, ?_, ?_, ?_, ?_, ?_, ?_, ?_, ?_, ?_, ?_, hfl, ?_, ?_, ?_⟩
  all_goals try (simp [RestoreRegs, popq, RegsToRestore.image]; done)
  intro h3 hio
  rw [hfl, iretqWritable_user _ _ h3 hio]
  have hk : (two64 - 1) ^^^ 0x254DD5 = 0xFFFFFFFFFFDAB22A := by decide
  rw [hk]
  exact ⟨and_or_and_left _ _ _ _ (by decide), and_or_and_right _ _ _ _ (by decide)⟩

set_option maxRecDepth 100000 in
theorem register_round_trip_witness :
    sampleHw.rax = wordAt envSample.info 0 ∧ sampleHw.rcx = wordAt envSample.info 1 ∧
    sampleHw.rdx = wordAt envSample.info 2 ∧ sampleHw.rbx = wordAt envSample.info 3 ∧
    sampleHw.rsp = wordAt envSample.info 4 ∧ sampleHw.rbp = wordAt envSample.info 5 ∧
    sampleHw.rsi = wordAt envSample.info 6 ∧ sampleHw.rdi = wordAt envSample.info 7 ∧
    sampleHw.r8 = wordAt envSample.info 8 ∧ sampleHw.r9 = wordAt envSample.info 9 ∧
    sampleHw.r10 = wordAt envSample.info 10 ∧ sampleHw.r11 = wordAt envSample.info 11 ∧
    sampleHw.r12 = wordAt envSample.info 12 ∧ sampleHw.r13 = wordAt envSample.info 13 ∧
    sampleHw.r14 = wordAt envSample.info 14 ∧ sampleHw.r15 = wordAt envSample.info 15 ∧
    sampleHw.rip = wordAt envSample.info 16 ∧
    sampleHw.rflags =
      (wordAt envSample.info 17 &&& iretqWritable (envSample.cs % 4) envSample.rflags) |||
        (envSample.rflags &&&
          ((two64 - 1) ^^^ iretqWritable (envSample.cs % 4) envSample.rflags)) ∧
    (envSample.cs % 4 = 3 → envSample.rflags / 4096 % 4 < 3 →
      sampleHw.rflags &&& 0x254DD5 = wordAt envSample.info 17 &&& 0x254DD5 ∧
      sampleHw.rflags &&& 0xFFFFFFFFFFDAB22A = envSample.rflags &&& 0xFFFFFFFFFFDAB22A) ∧
    sampleHw.cs = envSample.cs ∧ sampleHw.ss = envSample.ss :=
  register_round_trip envSample (_start envSample).1 sampleHw (by decide) (by decide)

set_option maxRecDepth 100000 in
/-- C8 as stated fails.  The sample stream has the flags word 18 (bits 1 and 4); run in
user mode with the live RFLAGS `0x202` (IF and the fixed bit 1), the run reaches `iretq`
and the RFLAGS it loads is `0x212`, not 18: the interrupt flag keeps its live value. -/
theorem flags_not_verbatim :
    wordAt envSample.info 17 = 18 ∧ envSample.cs % 4 = 3 ∧ envSample.rflags = 0x202 ∧
    (_start envSample).2 = .transferred sampleHw ∧ sampleHw.rflags = 0x212 ∧
    sampleHw.rflags ≠ wordAt envSample.info 17 := by
  decide

/-! ## Pipeline order -/

/-- C9, as the code has it.  The region-count word is converted to the `int` loop
counter without any range check.  Whenever the low 32 bits of the word are zero or have
the sign bit set, which is the case for every word from `2 ^ 31` to `2 ^ 32 - 1` and for
`2 ^ 32`, the counter is not positive: with at least twenty-one words in the file and
all system calls succeeding, no region is installed and the run goes on through the
unmapping and the thread-context calls to the control transfer. -/
theorem count_narrowing (env : Env)
    (hb : env.mmapInfo + env.info.length + 8 < two64) (h168 : 168 ≤ env.info.length)
    (hc : wordAt env.info 20 % 2 ^ 32 = 0 ∨ 2 ^ 31 ≤ wordAt env.info 20 % 2 ^ 32)
    (h1 : 0 ≤ env.openInfo) (h2 : env.fstatRc = 0) (h3 : env.closeInfo = 0)
    (h4 : 0 ≤ env.openPages) (h5 : env.munmapRc = 0) (h6 : env.closePages = 0)
    (h7 : env.prctlRc = 0) (h8 : 0 ≤ env.tidRc) :
    ∃ hw, _start env =
      ([Event.sys_open (.lit "out_info") O_RDONLY 0 env.openInfo,
        Event.sys_fstat env.openInfo env.info.length 0,
        Event.sys_mmap 0 env.info.length PROT_READ MAP_PRIVATE env.openInfo 0 env.mmapInfo,
        Event.sys_close env.openInfo 0,
        Event.sys_open (.lit "out_pages") O_RDONLY 0 env.openPages,
        Event.sys_munmap env.mmapInfo env.info.length 0,
        Event.sys_close env.openPages 0,
        Event.sys_arch_prctl ARCH_SET_FS (wordAt env.info 18) 0,
        Event.sys_set_tid_address (wordAt env.info 19) env.tidRc],
       .transferred hw) := by
  have hmf : env.mmapInfo ≠ MAP_FAILED := by
    unfold MAP_FAILED; unfold two64 at hb; omega
  have hlen : env.info.length % two64 = env.info.length := Nat.mod_eq_of_lt (by omega)
  have hcok := ctor_ok env h1 h2 hmf h3
  rw [hlen] at hcok
  have hrd : (Reader.ctor env).2 = .ok (rd env.info env.mmapInfo env.info.length 0) := by
    rcases ctor_rd env env.info env.info.length (le_refl _) (by simp) hb with h | h
    · rw [hcok] at h; simp at h
    · exact h
  obtain ⟨hd, hh, hcount, hfs, htid⟩ := readHeader_count env.info env.mmapInfo
    env.info.length (le_refl _) hb h168
  have hn : hd.mapping_count.toNat = 0 := by
    rw [hcount]
    unfold toInt32
    rcases hc with hc | hc
    · rw [hc]; simp
    · have hlt : wordAt env.info 20 % 2 ^ 32 < 2 ^ 32 := Nat.mod_lt _ (by norm_num)
      rw [if_neg (by omega)]
      apply Int.toNat_eq_zero.mpr
      omega
  have hl : (mapLoop env env.openPages hd.mapping_count.toNat 0
      (rd env.info env.mmapInfo env.info.length 168)).2 =
        .ok (rd env.info env.mmapInfo env.info.length 168) := by
    rw [hn]; rfl
  have hst := start_loop_ok env _ _ _ hd hrd (by omega) hh hl
  have hfin : finish env env.openPages hd (rd env.info env.mmapInfo env.info.length 168) =
      ([Event.sys_munmap env.mmapInfo env.info.length 0,
        Event.sys_close env.openPages 0,
        Event.sys_arch_prctl ARCH_SET_FS (wordAt env.info 18) 0,
        Event.sys_set_tid_address (wordAt env.info 19) env.tidRc],
       .transferred (RestoreRegs env hd.regs)) := by
    rcases finish_cases env env.openPages hd (rd env.info env.mmapInfo env.info.length 168)
      with hf | ⟨_, _, _, _, hf⟩
    · exfalso
      unfold finish Reader.Unmap at hf
      have : ¬ env.tidRc < 0 := by omega
      simp [h5, h6, h7, this] at hf
    · rw [hf, hfs, htid]
      have hun : (env.mmapInfo + env.info.length + two64 - env.mmapInfo) % two64 =
          env.info.length := by
        rw [show env.mmapInfo + env.info.length + two64 - env.mmapInfo =
          env.info.length + two64 by omega, Nat.add_mod_right]
        exact hlen
      simp only [rd, hun]
  refine ⟨RestoreRegs env hd.regs, ?_⟩
  rw [hst, hfin, hcok, hn]
  simp [mapLoop]

set_option maxRecDepth 100000 in
theorem count_narrowing_witness :
    (wordAt (envAt8192 overflowInfo).info 20 = 2 ^ 32) ∧
    ∃ hw, _start (envAt8192 overflowInfo) =
      ([Event.sys_open (.lit "out_info") O_RDONLY 0 (envAt8192 overflowInfo).openInfo,
        Event.sys_fstat (envAt8192 overflowInfo).openInfo
          (envAt8192 overflowInfo).info.length 0,
        Event.sys_mmap 0 (envAt8192 overflowInfo).info.length PROT_READ MAP_PRIVATE
          (envAt8192 overflowInfo).openInfo 0 (envAt8192 overflowInfo).mmapInfo,
        Event.sys_close (envAt8192 overflowInfo).openInfo 0,
        Event.sys_open (.lit "out_pages") O_RDONLY 0 (envAt8192 overflowInfo).openPages,
        Event.sys_munmap (envAt8192 overflowInfo).mmapInfo
          (envAt8192 overflowInfo).info.length 0,
        Event.sys_close (envAt8192 overflowInfo).openPages 0,
        Event.sys_arch_prctl ARCH_SET_FS (wordAt (envAt8192 overflowInfo).info 18) 0,
        Event.sys_set_tid_address (wordAt (envAt8192 overflowInfo).info 19)
          (envAt8192 overflowInfo).tidRc],
       .transferred hw) :=
  ⟨by decide, count_narrowing (envAt8192 overflowInfo) (by decide) (by decide)
    (Or.inl (by decide)) (by decide) rfl rfl (by decide) rfl rfl rfl (by decide)⟩

set_option maxRecDepth 100000 in
/-- C9 as stated fails.  The file `overflowInfo` holds twenty-one words, the last being
the region count `2 ^ 32`, which does not fit the signed 32-bit counter; with every
system call succeeding the run is not stopped: it installs no region, installs the
thread context and transfers control. -/
theorem count_not_checked :
    2 ^ 31 ≤ wordAt overflowInfo 20 ∧
    _start (envAt8192 overflowInfo) =
      ([Event.sys_open (.lit "out_info") 0 0 3,
        Event.sys_fstat 3 168 0,
        Event.sys_mmap 0 168 1 2 3 0 4096,
        Event.sys_close 3 0,
        Event.sys_open (.lit "out_pages") 0 0 4,
        Event.sys_munmap 4096 168 0,
        Event.sys_close 4 0,
        Event.sys_arch_prctl 4098 19 0,
        Event.sys_set_tid_address 20 0],
       .transferred sampleHw) := by
  decide

/-! ## Install request parameters -/

theorem mapLoop_one (env : Env) (fd : Int) (i : Nat) (S : List Nat) (base o : Nat)
    (d : Descriptor) (rest : List Nat) (ho : o ≤ S.length)
    (hb : base + S.length + 8 < two64) (hd : d.Valid)
    (hS : S.drop o = encodeDesc d ++ rest) :
    (mapLoop env fd 1 i (rd S base S.length o)).1 =
      (installRegion env fd i (d.decoded (base + o + 8 + 8 + 8 + 8))).1 := by
  have hlen := length_of_drop_eq hS ho
  rw [List.length_append] at hlen
  have hr := readRegion_rd S base S.length o d rest (le_refl _) ho hb hd hS
  rw [if_pos (by omega)] at hr
  rw [mapLoop_succ, hr]
  cases hI : installRegion env fd i (d.decoded (base + o + 8 + 8 + 8 + 8)) with
  | mk evs b =>
    cases b <;> simp [mapLoop, hI]

/-- C3, as the code has it.  For every valid descriptor `d` found in the stream after
the bytes `pre`, the loop iteration that consumes it issues these calls.  Flag set: one
`sys_mmap` with the descriptor's start, size and protection, the flag `MAP_PRIVATE`, the
page-data descriptor and the descriptor's page-data offset.  Flag clear and first view
byte non-zero: `sys_open` of the path pointer with `O_RDONLY`, and, unless that fails,
one `sys_mmap` with start, size, protection, `MAP_PRIVATE`, the descriptor just returned
by `sys_open` and the descriptor's file offset.  Otherwise: one `sys_mmap` with start,
size, protection, `MAP_PRIVATE | MAP_ANON`, descriptor -1 and offset 0.  Every request is
private and none carries `MAP_FIXED`: the start address is a placement hint. -/
theorem install_request (env : Env) (fd : Int) (i : Nat) (pre rest S : List Nat)
    (d : Descriptor) (base : Nat) (hd : d.Valid) (hS : S = pre ++ (encodeDesc d ++ rest))
    (hb : base + S.length + 8 < two64) :
    (d.flag ≠ 0 →
      (mapLoop env fd 1 i (rd S base S.length pre.length)).1 =
        [Event.sys_mmap d.start d.size d.prot MAP_PRIVATE fd d.pageOffset (env.mmapRet i)]) ∧
    (d.flag = 0 → d.firstByte ≠ 0 → 0 ≤ env.openRet i →
      (mapLoop env fd 1 i (rd S base S.length pre.length)).1.take 2 =
        [Event.sys_open (.ptr (base + pre.length + 32)) O_RDONLY 0 (env.openRet i),
         Event.sys_mmap d.start d.size d.prot MAP_PRIVATE (env.openRet i) d.fileOffset
           (env.mmapRet i)] ∧
      ((mapLoop env fd 1 i (rd S base S.length pre.length)).1.filterMap
        Event.mmapRequest).length = 1) ∧
    (d.flag = 0 → d.firstByte ≠ 0 → env.openRet i < 0 →
      (mapLoop env fd 1 i (rd S base S.length pre.length)).1 =
        [Event.sys_open (.ptr (base + pre.length + 32)) O_RDONLY 0 (env.openRet i)]) ∧
    (d.flag = 0 → d.firstByte = 0 →
      (mapLoop env fd 1 i (rd S base S.length pre.length)).1 =
        [Event.sys_mmap d.start d.size d.prot (MAP_PRIVATE ||| MAP_ANON) (-1) 0
          (env.mmapRet i)]) ∧
    MAP_PRIVATE &&& MAP_PRIVATE ≠ 0 ∧ (MAP_PRIVATE ||| MAP_ANON) &&& MAP_PRIVATE ≠ 0 ∧
    (MAP_PRIVATE ||| MAP_ANON) &&& MAP_ANON ≠ 0 ∧
    MAP_PRIVATE &&& MAP_FIXED = 0 ∧ (MAP_PRIVATE ||| MAP_ANON) &&& MAP_FIXED = 0 := by
  have hdrop : S.drop pre.length = encodeDesc d ++ rest := by rw [hS]; simp
  have hone := mapLoop_one env fd i S base pre.length d rest (by rw [hS]; simp) hb hd hdrop
  have hptr : base + pre.length + 8 + 8 + 8 + 8 = base + pre.length + 32 := by omega
  rw [hone, hptr]
  refine ⟨?_, ?_, ?_, ?_, by decide, by decide, by decide, by decide, by decide⟩
  · intro hf
    simp [installRegion, Descriptor.decoded, Descriptor.source, hf]
  · intro hf hfb hopen
    have hno : ¬ env.openRet i < 0 := by omega
    simp only [installRegion, Descriptor.decoded, Descriptor.source, hf, hfb, hno]
    by_cases hm : env.mmapRet i = d.start <;> simp [hm, hfb, Event.mmapRequest]
  · intro hf hfb hopen
    simp [installRegion, Descriptor.decoded, Descriptor.source, hf, hfb, hopen]
  · intro hf hfb
    simp [installRegion, Descriptor.decoded, Descriptor.source, hf, hfb]

theorem install_request_witness :
    descFile.Valid ∧
    ((mapLoop (envAt8192 []) 4 1 0 (rd (encodeDesc descFile) 4096
        (encodeDesc descFile).length ([] : List Nat).length)).1.take 2 =
      [Event.sys_open (.ptr (4096 + ([] : List Nat).length + 32)) O_RDONLY 0
          ((envAt8192 []).openRet 0),
       Event.sys_mmap descFile.start descFile.size descFile.prot MAP_PRIVATE
          ((envAt8192 []).openRet 0) descFile.fileOffset ((envAt8192 []).mmapRet 0)] ∧
      ((mapLoop (envAt8192 []) 4 1 0 (rd (encodeDesc descFile) 4096
        (encodeDesc descFile).length ([] : List Nat).length)).1.filterMap
          Event.mmapRequest).length = 1) :=
  ⟨by decide,
    (install_request (envAt8192 []) 4 0 [] [] (encodeDesc descFile) descFile 4096
      (by decide) (by decide) (by decide)).2.1 (by decide) (by decide) (by decide)⟩

/-- C3 as stated fails.  The mapping requests issued for a descriptor with embedded
data, for one with a backing file and for one with neither carry the flag words 2, 2
and 34, that is `MAP_PRIVATE`, `MAP_PRIVATE` and `MAP_PRIVATE | MAP_ANON`: none of them
has the `MAP_FIXED` bit, so none is a fixed-address mapping. -/
theorem install_not_fixed :
    (mapLoop (envAt8192 []) 4 1 0
        (rd (encodeDesc descDump) 4096 (encodeDesc descDump).length 0)).1 =
      [Event.sys_mmap 8192 4096 3 2 4 12288 8192] ∧
    (mapLoop (envAt8192 []) 4 1 0
        (rd (encodeDesc descFile) 4096 (encodeDesc descFile).length 0)).1 =
      [Event.sys_open (.ptr 4128) 0 0 5, Event.sys_mmap 8192 4096 1 2 5 4096 8192,
       Event.sys_close 5 0] ∧
    (mapLoop (envAt8192 []) 4 1 0
        (rd (encodeDesc descAnon) 4096 (encodeDesc descAnon).length 0)).1 =
      [Event.sys_mmap 8192 4096 3 34 (-1) 0 8192] ∧
    2 &&& MAP_FIXED = 0 ∧ 34 &&& MAP_FIXED = 0 := by
  decide

end SnappyStart
